import Mathlib

/-
  Verification development for the query-specification compiler of the
  `typeorm-sequelize` repository (src/core/base/repository.ts).

  The TypeScript code manipulates untyped JSON-shaped values (predicate trees,
  inclusion trees, selection trees, hydrated rows).  We embed JavaScript values
  as the inductive type `JVal` and translate the repository's functions
  (`parseJsonPredicate`, `createAutomaticJoin`, `addInclude`, `addSelect`,
  `filterSelectedColumns`, `mapRelationColumns`, `processRelationData`,
  `resetQueryBuilder`, the terminal execution methods, and
  `findByNestedProperty`'s join-building loop) into Lean functions over `JVal`
  and an explicit `Session` state mirroring the mutable fields of
  `BaseRepository` (`queryBuilder`, `relationAliases`,
  `selectedRelationColumns`, `selectedColumns`).

  JavaScript-level behaviours that the code relies on (truthiness,
  `Object.entries`, property access returning `undefined`, upsert semantics of
  property assignment, lodash `get`/`set` with dotted paths, spread syntax,
  `Object.assign`) are modelled by the `js*` helper functions below.
  Thrown exceptions are modelled with `Except String`; because the repository
  mutates `this` in place, state accumulated before a throw is preserved in
  the returned session, matching JavaScript semantics.
-/

/-
  Kernel-reducible reimplementations of the `String` operations the code
  uses (`String.toNat?`, `String.splitOn "."`, `String.startsWith`): the
  core versions are compiled through byte-position loops that the kernel
  cannot unfold, so closed theorems could not be checked against them.
  Each function below computes the same result on every input.
-/

/-- `String.toNat?`: a non-empty all-digit string parses to its value. -/
def strToNat? (s : String) : Option Nat :=
  if s.data ≠ [] && s.data.all (fun c => 48 ≤ c.toNat && c.toNat ≤ 57) then
    some (s.data.foldl (fun n c => n * 10 + (c.toNat - 48)) 0)
  else none

/-- `String.startsWith`. -/
def strStartsWith (s p : String) : Bool :=
  p.data.isPrefixOf s.data

/-- Accumulator loop for `splitDots`. -/
def splitDotsGo : List Char → List Char → List String
  | [], acc => [String.mk acc.reverse]
  | c :: rest, acc =>
    if c = Char.ofNat 46 then String.mk acc.reverse :: splitDotsGo rest []
    else splitDotsGo rest (c :: acc)

/-- `String.splitOn "."`. -/
def splitDots (s : String) : List String :=
  splitDotsGo s.data []

/-- A JavaScript runtime value, as manipulated by the repository code. -/
inductive JVal where
  | jnull
  | undef
  | bool (b : Bool)
  | num (n : Int)
  | str (s : String)
  | arr (elems : List JVal)
  | obj (fields : List (String × JVal))
deriving Repr

/-- JavaScript truthiness (`if (x)`): `null`, `undefined`, `false`, `0`, `""`
are falsy; objects and arrays are always truthy. -/
def jsTruthy : JVal → Bool
  | .jnull => false
  | .undef => false
  | .bool b => b
  | .num n => n != 0
  | .str s => s ≠ ""
  | .arr _ => true
  | .obj _ => true

/-- `typeof v === 'object'` (true for plain objects, arrays and `null`). -/
def typeofObject : JVal → Bool
  | .obj _ => true
  | .arr _ => true
  | .jnull => true
  | _ => false

/-- First-match association lookup on an object's field list; a missing key
reads as `undefined`, as in JavaScript property access. -/
def getField : List (String × JVal) → String → JVal
  | [], _ => .undef
  | (k, v) :: rest, key => if k = key then v else getField rest key

/-- Property read `v[key]`.  On arrays, decimal keys index the elements. -/
def objGet : JVal → String → JVal
  | .obj fs, key => getField fs key
  | .arr xs, key =>
    match strToNat? key with
    | some i => xs.getD i .undef
    | none => .undef
  | .str s, key =>
    match strToNat? key with
    | some i =>
      match s.data.get? i with
      | some c => .str (String.mk [c])
      | none => .undef
    | none => .undef
  | _, _ => (.undef)

/-- The `in` operator restricted to own keys (`'$or' in expr`); the code only
applies it to objects and arrays. -/
def hasOwnKey : JVal → String → Bool
  | .obj fs, key => fs.any (fun p => p.1 = key)
  | .arr xs, key => ((strToNat? key).map (fun i => decide (i < xs.length))).getD false
  | _, _ => false

/-- Pair list elements with their decimal indices, as `Object.entries` does
for arrays and strings. -/
def enumFrom (i : Nat) : List JVal → List (String × JVal)
  | [] => []
  | x :: xs => (toString i, x) :: enumFrom (i + 1) xs

/-- Own enumerable entries of a value: `Object.entries` for objects and
arrays; index/character pairs for strings; empty for other primitives
(note: `Object.entries(null)` and `Object.entries(undefined)` throw, which
call sites model separately before using this function). -/
def jsOwnEntries : JVal → List (String × JVal)
  | .obj fs => fs
  | .arr xs => enumFrom 0 xs
  | .str s => enumFrom 0 (s.data.map (fun c => .str (String.mk [c])))
  | _ => []

/-- Upsert on an object's field list: JavaScript property assignment replaces
the value in place if the key exists and appends otherwise. -/
def setField : List (String × JVal) → String → JVal → List (String × JVal)
  | [], k, v => [(k, v)]
  | (k', v') :: rest, k, v =>
    if k' = k then (k, v) :: rest else (k', v') :: setField rest k v

/-- Property write `target[key] = v` (no-op on non-objects, where JavaScript
silently discards the write in sloppy mode). -/
def objSet : JVal → String → JVal → JVal
  | .obj fs, k, v => .obj (setField fs k v)
  | x, _, _ => x

/-- Object spread `{...v}` (spreading `null`/`undefined` yields `{}`). -/
def jsSpread (v : JVal) : JVal := .obj (jsOwnEntries v)

/-- `Object.assign(target, src)` — copy all own enumerable entries of `src`
onto `target`. -/
def jsAssign (target src : JVal) : JVal :=
  (jsOwnEntries src).foldl (fun acc p => objSet acc p.1 p.2) target

mutual
/-- JavaScript string conversion, used when a value appears in a template
literal or as a computed property key. -/
def jsKeyOf : JVal → String
  | .str s => s
  | .num n => toString n
  | .bool b => if b then "true" else "false"
  | .jnull => "null"
  | .undef => "undefined"
  | .arr xs => String.intercalate "," (jsKeyList xs)
  | .obj _ => "[object Object]"
def jsKeyList : List JVal → List String
  | [] => []
  | x :: xs => jsKeyOf x :: jsKeyList xs
end

/-- lodash `get`: walk a dot-separated path. -/
def lodashGet (v : JVal) (path : String) : JVal :=
  (splitDots path).foldl objGet v

/-- lodash `set` along pre-split path components, creating plain-object
intermediates for missing or primitive steps. -/
def lodashSetParts : JVal → List String → JVal → JVal
  | v, [], _ => v
  | v, [k], x => objSet v k x
  | v, k :: k' :: rest, x =>
    let child := objGet v k
    let childBase :=
      match child with
      | .obj fs => JVal.obj fs
      | .arr es => JVal.arr es
      | _ => JVal.obj []
    objSet v k (lodashSetParts childBase (k' :: rest) x)

/-- lodash `set` with a dot-separated path. -/
def lodashSet (v : JVal) (path : String) (x : JVal) : JVal :=
  lodashSetParts v (splitDots path) x

/-
  Termination measure.  The recursive walks below descend either into a
  member value of an object/array, or into an object rebuilt from a subset
  of another object's fields (rest-destructuring `{...rest}`), or into the
  index/value entries of an array.  `jweight` ignores key strings so that all
  three descents strictly decrease it.
-/

mutual
/-- Structural weight of a value (keys not counted). -/
def jweight : JVal → Nat
  | .obj fs => 1 + lweight fs
  | .arr xs => 1 + aweight xs
  | _ => 1
/-- Weight of an entry list. -/
def lweight : List (String × JVal) → Nat
  | [] => 0
  | (_, v) :: rest => 2 + jweight v + lweight rest
/-- Weight of an element list. -/
def aweight : List JVal → Nat
  | [] => 0
  | v :: rest => 2 + jweight v + aweight rest
end

/-
  Session state.  `BaseRepository` keeps one mutable `SelectQueryBuilder`
  plus three bookkeeping fields (`relationAliases`, `selectedRelationColumns`,
  `selectedColumns`).  `Builder` mirrors the query-builder state the
  repository drives through TypeORM's API.
-/

/-- An entry of `this.relationAliases`: `{ alias, path }`. -/
structure AliasEntry where
  aliasName : String
  path : String
deriving Repr, DecidableEq

/-- One join recorded on the query builder (`leftJoin` /
`leftJoinAndSelect`): the property-path expression, the alias, and whether
the join also selects. -/
structure Join where
  ref : String
  aliasName : String
  andSelect : Bool
deriving Repr, DecidableEq

/-- The observable state of the TypeORM `SelectQueryBuilder` as driven by the
repository: root alias, join list, (replaceable) where clause with its
parameter map, explicit `addSelect` calls, order-by list, limit/skip/take,
group-by list and distinct flag. -/
structure Builder where
  rootAlias : String
  joins : List Join
  whereClause : Option (String × List (String × JVal))
  extraSelects : List (String × JVal)
  orderBys : List (String × Bool)
  limitN : Option Nat
  skipN : Option Nat
  takeN : Option Nat
  groupBys : List String
  distinctFlag : Bool
deriving Repr

/-- `createQueryBuilder(alias)`: a fresh builder. -/
def freshBuilder (alias0 : String) : Builder :=
  ⟨alias0, [], none, [], [], none, none, none, [], false⟩

/-- The repository's fixed data: the alias used by the constructor
(`entity.name.toLowerCase()`) and the alias used on reset
(`metadata.tableName || metadata.name.toLowerCase()`). -/
structure Repo where
  entityAliasName : String
  tableName : String
deriving Repr, DecidableEq

/-- The mutable state of one `BaseRepository` instance driving one query
session.  `selectedRelationColumns` and `selectedColumns` are untyped
JavaScript objects manipulated through lodash `get`/`set`. -/
structure Session where
  repo : Repo
  qb : Builder
  relationAliases : List (String × AliasEntry)
  selectedRelationColumns : JVal
  selectedColumns : JVal
deriving Repr

/-- Constructor state of a repository. -/
def initSession (r : Repo) : Session :=
  ⟨r, freshBuilder r.entityAliasName, [], .obj [], .obj []⟩

/-- `resetQueryBuilder()`: fresh query builder, `relationAliases` emptied,
`selectedRelationColumns = {}`, `selectedColumns = {}`. -/
def resetQueryBuilder (s : Session) : Session :=
  ⟨s.repo, freshBuilder s.repo.tableName, [], .obj [], .obj []⟩

/-- Lookup in the `relationAliases` record. -/
def aliasLookup : List (String × AliasEntry) → String → Option AliasEntry
  | [], _ => none
  | (k, e) :: rest, key => if k = key then some e else aliasLookup rest key

/-- Record write `this.relationAliases[path] = entry` (upsert). -/
def aliasStore : List (String × AliasEntry) → String → AliasEntry → List (String × AliasEntry)
  | [], k, e => [(k, e)]
  | (k', e') :: rest, k, e =>
    if k' = k then (k, e) :: rest else (k', e') :: aliasStore rest k e

/-- `expressionMap.joinAttributes.some(j => j.alias?.name === a)`. -/
def joinExists (joins : List Join) (a : String) : Bool :=
  joins.any (fun j => j.aliasName = a)

/-- Append a join to the builder. -/
def addJoin (qb : Builder) (ref a : String) (sel : Bool) : Builder :=
  { qb with joins := qb.joins ++ [⟨ref, a, sel⟩] }

/-- Loop body of `createAutomaticJoin`: walk the path parts, reusing an
existing alias for an already-resolved prefix, otherwise synthesizing
`<rootAlias>_<parts joined by _>`, creating the `leftJoin` only if no join
with that alias exists yet, and recording the alias entry. -/
def autoJoinLoop (s : Session) (done rest : List String) (cur : String) : Session × String :=
  match rest with
  | [] => (s, cur)
  | part :: restParts =>
    let done' := done ++ [part]
    let builtPath := String.intercalate "." done'
    match aliasLookup s.relationAliases builtPath with
    | some e => autoJoinLoop s done' restParts e.aliasName
    | none =>
      let targetAlias := s.qb.rootAlias ++ "_" ++ String.intercalate "_" done'
      let s1 :=
        if joinExists s.qb.joins targetAlias then s
        else { s with qb := addJoin s.qb (cur ++ "." ++ part) targetAlias false }
      let s2 := { s1 with relationAliases := aliasStore s1.relationAliases builtPath ⟨targetAlias, builtPath⟩ }
      autoJoinLoop s2 done' restParts targetAlias

/-- `createAutomaticJoin(fullPath, currentAlias)`: if the exact path already
has an entry, return it unchanged; otherwise resolve the dotted path part by
part.  Note that, as in the source, no relation metadata is consulted. -/
def createAutomaticJoin (s : Session) (fullPath currentAlias : String) : Session × AliasEntry :=
  match aliasLookup s.relationAliases fullPath with
  | some e => (s, e)
  | none =>
    let r := autoJoinLoop s [] (splitDots fullPath) currentAlias
    (r.1, ⟨r.2, fullPath⟩)

/-
  Predicate compiler: `parseJsonPredicate` with its inner closures
  `walkField` and `walk`.  The local `params` map and monotonic `index`
  counter are threaded through `PSt` together with the session (which
  `walk` mutates via `createAutomaticJoin`).
-/

/-- Parser state: the session plus the `params` record and the monotonic
parameter counter local to one `parseJsonPredicate` call. -/
structure PSt where
  sess : Session
  params : List (String × JVal)
  pindex : Nat
deriving Repr

/-- The part of the parser state the `walkField` closure can touch: it reads
and writes only the `params` record and the `index` counter, never the
session (`this`). -/
structure FieldSt where
  params : List (String × JVal)
  pindex : Nat
deriving Repr

/-- `params[paramKey] = value`. -/
def bindParam (st : FieldSt) (key : String) (v : JVal) : FieldSt :=
  { st with params := setField st.params key v }

/-- `Object.keys(conditions).some(key => key.startsWith('$'))`. -/
def hasDollarKey (v : JVal) : Bool :=
  (jsOwnEntries v).any (fun p => strStartsWith p.1 "$")

/-- `true` exactly for the `null` value. -/
def isNullB : JVal → Bool
  | .jnull => true
  | _ => false

/-- Array destructuring `const [start, end] = value` (iterable protocol:
arrays yield their elements, strings their characters; other values throw). -/
def jsIterate2 : JVal → Except String (JVal × JVal)
  | .arr xs => .ok (xs.getD 0 .undef, xs.getD 1 .undef)
  | .str s =>
    let cs := s.data.map (fun c => JVal.str (String.mk [c]))
    .ok (cs.getD 0 .undef, cs.getD 1 .undef)
  | _ => .error "TypeError: value is not iterable"

/-
  The recursive walks below are implemented with an explicit recursion-depth
  budget (`fuel`), which makes them structurally recursive on `Nat` and hence
  directly computable by the kernel.  Every recursive call strictly decreases
  the `jweight`/`lweight`/`aweight` measure of its main argument (each call
  descends into a member value, an entry list, or a filtered entry list — see
  the weight lemmas above), so the budget the public wrappers pass (the
  weight of the input plus one, or a sound upper bound built from it) always
  strictly exceeds the depth of any recursion chain: the out-of-fuel branch
  is unreachable from the wrappers.
-/

/-- Sentinel for the unreachable out-of-fuel branch. -/
def fuelErr : String := "InternalError: recursion fuel exhausted"

mutual
/-- `walkField(field, conditions, currentAlias)`: render each operator entry
of a field comparison and join the fragments with `' AND '`.  For non-object
`conditions`, `Object.entries` yields decimal-index keys (or nothing), so the
first entry — if any — falls into the switch's default case after the
parameter counter has been consumed. -/
def walkF_field : Nat → String → JVal → String → FieldSt → FieldSt × Except String String
  | 0, _, _, _, st => (st, .error fuelErr)
  | fuel + 1, field, conditions, currentAlias, st =>
    match conditions with
    | .obj fs =>
      match walkF_fieldEntries fuel field fs currentAlias st with
      | (st', .ok parts) => (st', .ok (String.intercalate " AND " parts))
      | (st', .error e) => (st', .error e)
    | .jnull => (st, .error "TypeError: cannot convert undefined or null to object")
    | .undef => (st, .error "TypeError: cannot convert undefined or null to object")
    | other =>
      match jsOwnEntries other with
      | [] => (st, .ok "")
      | (op, _) :: _ =>
        ({ st with pindex := st.pindex + 1 }, .error ("Unsupported operator: " ++ op))

/-- The `Object.entries(conditions).map(...)` loop of `walkField`, including
the operator switch; a thrown error aborts the loop but keeps the state
mutated so far. -/
def walkF_fieldEntries : Nat → String → List (String × JVal) → String → FieldSt →
    FieldSt × Except String (List String)
  | 0, _, _, _, st => (st, .error fuelErr)
  | fuel + 1, field, entries, currentAlias, st =>
    match entries with
    | [] => (st, .ok [])
    | (op, value) :: rest =>
      let paramKey := field ++ "_" ++ toString st.pindex
      let st1 : FieldSt := { st with pindex := st.pindex + 1 }
      let column := currentAlias ++ "." ++ field
      let step : FieldSt × Except String String :=
        match op, value with
        | "$or", .arr xs =>
          match walkF_fieldList fuel field xs currentAlias st1 with
          | (st', .ok parts) => (st', .ok ("(" ++ String.intercalate " OR " parts ++ ")"))
          | (st', .error e) => (st', .error e)
        | "$or", _ => (st1, .error "TypeError: value.map is not a function")
        | "$eq", _ => (bindParam st1 paramKey value, .ok (column ++ " = :" ++ paramKey))
        | "$ne", _ => (bindParam st1 paramKey value, .ok (column ++ " != :" ++ paramKey))
        | "$lt", _ => (bindParam st1 paramKey value, .ok (column ++ " < :" ++ paramKey))
        | "$lte", _ => (bindParam st1 paramKey value, .ok (column ++ " <= :" ++ paramKey))
        | "$gt", _ => (bindParam st1 paramKey value, .ok (column ++ " > :" ++ paramKey))
        | "$gte", _ => (bindParam st1 paramKey value, .ok (column ++ " >= :" ++ paramKey))
        | "$in", _ => (bindParam st1 paramKey value, .ok (column ++ " IN (:..." ++ paramKey ++ ")"))
        | "$notIn", _ => (bindParam st1 paramKey value, .ok (column ++ " NOT IN (:..." ++ paramKey ++ ")"))
        | "$between", _ =>
          match jsIterate2 value with
          | .ok se =>
            let st2 := bindParam st1 (paramKey ++ "_start") se.1
            let st3 := bindParam st2 (paramKey ++ "_end") se.2
            (st3, .ok (column ++ " BETWEEN :" ++ paramKey ++ "_start AND :" ++ paramKey ++ "_end"))
          | .error e => (st1, .error e)
        | "$like", _ =>
          (bindParam st1 paramKey (.str ("%" ++ jsKeyOf value ++ "%")), .ok (column ++ " LIKE :" ++ paramKey))
        | "$iLike", _ =>
          (bindParam st1 paramKey (.str ("%" ++ jsKeyOf value ++ "%")), .ok (column ++ " ILIKE :" ++ paramKey))
        | "$notLike", _ =>
          (bindParam st1 paramKey (.str ("%" ++ jsKeyOf value ++ "%")), .ok (column ++ " NOT LIKE :" ++ paramKey))
        | "$notILike", _ =>
          (bindParam st1 paramKey (.str ("%" ++ jsKeyOf value ++ "%")), .ok (column ++ " NOT ILIKE :" ++ paramKey))
        | "$isNull", _ => (st1, .ok (column ++ " IS NULL"))
        | "$isNotNull", _ => (st1, .ok (column ++ " IS NOT NULL"))
        | "$contains", _ =>
          (bindParam st1 paramKey (.str ("%" ++ jsKeyOf value ++ "%")), .ok (column ++ " LIKE :" ++ paramKey))
        | "$startsWith", _ =>
          (bindParam st1 paramKey (.str (jsKeyOf value ++ "%")), .ok (column ++ " LIKE :" ++ paramKey))
        | "$endsWith", _ =>
          (bindParam st1 paramKey (.str ("%" ++ jsKeyOf value)), .ok (column ++ " LIKE :" ++ paramKey))
        | "$matches", _ => (bindParam st1 paramKey value, .ok (column ++ " ~ :" ++ paramKey))
        | _, _ => (st1, .error ("Unsupported operator: " ++ op))
      match step with
      | (st', .error e) => (st', .error e)
      | (st', .ok frag) =>
        match walkF_fieldEntries fuel field rest currentAlias st' with
        | (st'', .ok parts) => (st'', .ok (frag :: parts))
        | (st'', .error e) => (st'', .error e)

/-- The `$or` recursion inside `walkField`: map `walkField` over a list of
field comparisons against the same field and alias. -/
def walkF_fieldList : Nat → String → List JVal → String → FieldSt →
    FieldSt × Except String (List String)
  | 0, _, _, _, st => (st, .error fuelErr)
  | fuel + 1, field, xs, currentAlias, st =>
    match xs with
    | [] => (st, .ok [])
    | x :: rest =>
      match walkF_field fuel field x currentAlias st with
      | (st', .error e) => (st', .error e)
      | (st', .ok frag) =>
        match walkF_fieldList fuel field rest currentAlias st' with
        | (st'', .ok parts) => (st'', .ok (frag :: parts))
        | (st'', .error e) => (st'', .error e)

/-- `walk(expr, currentAlias, path)`: `$or`/`$and` combinators recurse over
their children; otherwise each field entry is either a relation reference
(object value with no `$`-prefixed key — resolved through `relationAliases`
or `createAutomaticJoin`, then recursed into) or a field comparison.  The
rendered fragments are filtered for emptiness and joined with `' AND '`.
Applying `'$or' in expr` to a primitive throws. -/
def walkF : Nat → JVal → String → String → PSt → PSt × Except String String
  | 0, _, _, _, st => (st, .error fuelErr)
  | fuel + 1, expr, currentAlias, path, st =>
    match expr with
    | .obj fs =>
      if jsTruthy (getField fs "$or") then
        match getField fs "$or" with
        | .arr xs =>
          match walkF_list fuel xs currentAlias path st with
          | (st', .ok parts) => (st', .ok ("(" ++ String.intercalate " OR " parts ++ ")"))
          | (st', .error e) => (st', .error e)
        | _ => (st, .error "TypeError: expr.map is not a function")
      else if jsTruthy (getField fs "$and") then
        match getField fs "$and" with
        | .arr xs =>
          match walkF_list fuel xs currentAlias path st with
          | (st', .ok parts) => (st', .ok ("(" ++ String.intercalate " AND " parts ++ ")"))
          | (st', .error e) => (st', .error e)
        | _ => (st, .error "TypeError: expr.map is not a function")
      else
        match walkF_entries fuel fs currentAlias path st with
        | (st', .ok parts) => (st', .ok (String.intercalate " AND " (parts.filter (fun p => p ≠ ""))))
        | (st', .error e) => (st', .error e)
    | .arr xs =>
      match walkF_arr fuel 0 xs currentAlias path st with
      | (st', .ok parts) => (st', .ok (String.intercalate " AND " (parts.filter (fun p => p ≠ ""))))
      | (st', .error e) => (st', .error e)
    | _ => (st, .error "TypeError: cannot use in operator to search for key in expr")

/-- One field entry of `walk`'s loop: a relation reference (object value
with no `$`-prefixed key) is resolved through `relationAliases` or
`createAutomaticJoin` and recursed into; anything else goes through
`walkField`, which touches only the `params`/`index` part of the state. -/
def walkF_step : Nat → String → JVal → String → String → PSt → PSt × Except String String
  | 0, _, _, _, _, st => (st, .error fuelErr)
  | fuel + 1, field, conditions, currentAlias, path, st =>
    let fullPath := if path = "" then field else path ++ "." ++ field
    if typeofObject conditions && !(isNullB conditions) && !(hasDollarKey conditions) then
      let resolved :=
        match aliasLookup st.sess.relationAliases fullPath with
        | some e => (st.sess, e)
        | none => createAutomaticJoin st.sess fullPath currentAlias
      walkF fuel conditions resolved.2.aliasName fullPath { st with sess := resolved.1 }
    else
      let fres := walkF_field fuel field conditions currentAlias ⟨st.params, st.pindex⟩
      ({ st with params := fres.1.params, pindex := fres.1.pindex }, fres.2)

/-- The `Object.entries(expr).map(...)` loop of `walk` over an object's
fields. -/
def walkF_entries : Nat → List (String × JVal) → String → String → PSt →
    PSt × Except String (List String)
  | 0, _, _, _, st => (st, .error fuelErr)
  | fuel + 1, fs, currentAlias, path, st =>
    match fs with
    | [] => (st, .ok [])
    | (field, conditions) :: rest =>
      match walkF_step fuel field conditions currentAlias path st with
      | (st', .error e) => (st', .error e)
      | (st', .ok frag) =>
        match walkF_entries fuel rest currentAlias path st' with
        | (st'', .ok parts) => (st'', .ok (frag :: parts))
        | (st'', .error e) => (st'', .error e)

/-- The same loop for an array `expr`, whose `Object.entries` are
index/element pairs. -/
def walkF_arr : Nat → Nat → List JVal → String → String → PSt →
    PSt × Except String (List String)
  | 0, _, _, _, _, st => (st, .error fuelErr)
  | fuel + 1, i, xs, currentAlias, path, st =>
    match xs with
    | [] => (st, .ok [])
    | conditions :: rest =>
      match walkF_step fuel (toString i) conditions currentAlias path st with
      | (st', .error e) => (st', .error e)
      | (st', .ok frag) =>
        match walkF_arr fuel (i + 1) rest currentAlias path st' with
        | (st'', .ok parts) => (st'', .ok (frag :: parts))
        | (st'', .error e) => (st'', .error e)

/-- Child recursion for the `$or`/`$and` combinators of `walk`. -/
def walkF_list : Nat → List JVal → String → String → PSt →
    PSt × Except String (List String)
  | 0, _, _, _, st => (st, .error fuelErr)
  | fuel + 1, xs, currentAlias, path, st =>
    match xs with
    | [] => (st, .ok [])
    | x :: rest =>
      match walkF fuel x currentAlias path st with
      | (st', .error e) => (st', .error e)
      | (st', .ok frag) =>
        match walkF_list fuel rest currentAlias path st' with
        | (st'', .ok parts) => (st'', .ok (frag :: parts))
        | (st'', .error e) => (st'', .error e)
end

/-- `parseJsonPredicate(predicate, alias)`: run `walk` with an empty `params`
map and a zero parameter counter; returns the final parser state (the session
with any automatic joins) and the rendered where-clause or the thrown
error. -/
def parseJsonPredicate (s : Session) (predicate : JVal) (alias0 : String) :
    PSt × Except String String :=
  walkF (jweight predicate + 1) predicate alias0 "" ⟨s, [], 0⟩

/-- `where(predicate)`: compile the predicate against the builder's root
alias and, on success, install the clause and parameters with
`queryBuilder.where`  (replacing any previous where clause).  On a thrown
error the where clause is untouched but session mutations made before the
throw (automatic joins, alias entries) persist. -/
def whereOp (s : Session) (predicate : JVal) : Session × Except String Unit :=
  match parseJsonPredicate s predicate s.qb.rootAlias with
  | (st, .error e) => (st.sess, .error e)
  | (st, .ok clause) =>
    ({ st.sess with qb := { st.sess.qb with whereClause := some (clause, st.params) } }, .ok ())

/-
  Relation inclusion: `include()` and its recursive helper `addInclude`.
-/

/-- Shared join bookkeeping of `addInclude`: skip `leftJoinAndSelect` if a
join with the alias already exists, then store
`relationAliases[propertyPath] = { alias, path: propertyPath }`. -/
def includeJoin (s : Session) (column relAlias propertyPath : String) : Session :=
  let s1 :=
    if joinExists s.qb.joins relAlias then s
    else { s with qb := addJoin s.qb column relAlias true }
  { s1 with relationAliases := aliasStore s1.relationAliases propertyPath ⟨relAlias, propertyPath⟩ }

mutual
/-- `addInclude(data, parentAlias, parentPath)`: walk the inclusion tree's
entries.  An object value may carry an `as` alias override and a nested
`include` subtree; any other value joins under the synthesized
`<parentAlias>_<key>` alias. -/
def addIncludeF : Nat → Session → JVal → String → String → Session × Except String Unit
  | 0, s, _, _, _ => (s, .error fuelErr)
  | fuel + 1, s, data, parentAlias, parentPath =>
    match data with
    | .obj fs => includeF_entries fuel s fs parentAlias parentPath
    | .arr xs => includeF_arr fuel s 0 xs parentAlias parentPath
    | .jnull => (s, .error "TypeError: cannot convert undefined or null to object")
    | .undef => (s, .error "TypeError: cannot convert undefined or null to object")
    | _ => (s, .ok ())

/-- The `Object.entries(data).map(...)` loop of `addInclude`.  A `null` entry
value throws on destructuring; a plain-object value reads its `as`/`include`
properties; an array value also has `typeof === 'object'` but its `as` and
`include` properties read as `undefined`, so it degenerates to exactly the
non-object behaviour (join under `<parentAlias>_<key>`), with which it is
merged in the catch-all case. -/
def includeF_entries : Nat → Session → List (String × JVal) → String → String →
    Session × Except String Unit
  | 0, s, _, _, _ => (s, .error fuelErr)
  | fuel + 1, s, fs, parentAlias, parentPath =>
    match fs with
    | [] => (s, .ok ())
    | (k, v) :: rest =>
      let propertyPath := if parentPath = "" then k else parentPath ++ "." ++ k
      let column := parentAlias ++ "." ++ k
      let step : Session × Except String Unit :=
        match v with
        | .jnull => (s, .error "TypeError: cannot destructure null")
        | .obj m =>
          let asVal := getField m "as"
          let includeVal := getField m "include"
          let relAlias := if jsTruthy asVal then jsKeyOf asVal else parentAlias ++ "_" ++ k
          let s' := includeJoin s column relAlias propertyPath
          if jsTruthy includeVal then addIncludeF fuel s' includeVal relAlias propertyPath
          else (s', .ok ())
        | _ => (includeJoin s column (parentAlias ++ "_" ++ k) propertyPath, .ok ())
      match step with
      | (s', .error e) => (s', .error e)
      | (s', .ok _) => includeF_entries fuel s' rest parentAlias parentPath

/-- The same loop when `Object.entries` enumerates an array's elements with
decimal-index keys. -/
def includeF_arr : Nat → Session → Nat → List JVal → String → String →
    Session × Except String Unit
  | 0, s, _, _, _, _ => (s, .error fuelErr)
  | fuel + 1, s, i, xs, parentAlias, parentPath =>
    match xs with
    | [] => (s, .ok ())
    | v :: rest =>
      let k := toString i
      let propertyPath := if parentPath = "" then k else parentPath ++ "." ++ k
      let column := parentAlias ++ "." ++ k
      let step : Session × Except String Unit :=
        match v with
        | .jnull => (s, .error "TypeError: cannot destructure null")
        | .obj m =>
          let asVal := getField m "as"
          let includeVal := getField m "include"
          let relAlias := if jsTruthy asVal then jsKeyOf asVal else parentAlias ++ "_" ++ k
          let s' := includeJoin s column relAlias propertyPath
          if jsTruthy includeVal then addIncludeF fuel s' includeVal relAlias propertyPath
          else (s', .ok ())
        | _ => (includeJoin s column (parentAlias ++ "_" ++ k) propertyPath, .ok ())
      match step with
      | (s', .error e) => (s', .error e)
      | (s', .ok _) => includeF_arr fuel s' (i + 1) rest parentAlias parentPath
end

/-- `include(keySelector)`: reset the whole builder state first, then add the
inclusion tree starting from the (fresh) root alias. -/
def includeOp (s : Session) (keySelector : JVal) : Session × Except String Unit :=
  let s' := resetQueryBuilder s
  addIncludeF (jweight keySelector + 1) s' keySelector s'.qb.rootAlias ""

/-
  Ordering, paging and grouping builder operations.
-/

/-- `orderBy` / `orderByDescending` / `thenBy` / `thenByDescending`:
`addOrderBy(keySelector, dir)`. -/
def orderByOp (s : Session) (key : String) (descending : Bool) : Session :=
  { s with qb := { s.qb with orderBys := s.qb.orderBys ++ [(key, descending)] } }

/-- `skip(count)`. -/
def skipOp (s : Session) (count : Nat) : Session :=
  { s with qb := { s.qb with skipN := some count } }

/-- `take(count)`. -/
def takeOp (s : Session) (count : Nat) : Session :=
  { s with qb := { s.qb with takeN := some count } }

/-- `distinct()`. -/
def distinctOp (s : Session) : Session :=
  { s with qb := { s.qb with distinctFlag := true } }

/-- `groupBy` / `thenGroupBy`. -/
def groupByOp (s : Session) (key : String) : Session :=
  { s with qb := { s.qb with groupBys := s.qb.groupBys ++ [key] } }

/-
  Projection planner: `select()` / `addSelect` and the per-entry checker
  `filterSelectedRelationColumnsUndefined`.
-/

/-- Rest-destructuring `const { columns, path, alias, ...rest } = v`:
the object of `v`'s own entries minus those three keys. -/
def restOf (v : JVal) : JVal :=
  .obj ((jsOwnEntries v).filter
    (fun p => !(p.1 = "columns" || p.1 = "path" || p.1 = "alias")))

mutual
/-- `filterSelectedRelationColumnsUndefined(columnsData)`: every node of the
relation-columns tree must have a truthy `columns` property; nested relation
entries (the rest-destructured keys) are checked recursively.  A non-object
node's `columns` property reads as `undefined`, so it fails the check (and
`null`/`undefined` nodes throw on destructuring). -/
def checkColumnsF : Nat → JVal → Except String Unit
  | 0, _ => .error fuelErr
  | fuel + 1, columnsData =>
    match columnsData with
    | .obj fs => checkColumnsF_entries fuel fs
    | .arr xs => checkColumnsF_arr fuel 0 xs
    | .str sv =>
      if sv = "" then .ok ()
      else .error ("Columns are undefined for 0")
    | _ => .ok ()

/-- The `Object.entries(columnsData).forEach(...)` loop of the checker. -/
def checkColumnsF_entries : Nat → List (String × JVal) → Except String Unit
  | 0, _ => .error fuelErr
  | fuel + 1, fs =>
    match fs with
    | [] => .ok ()
    | (k, v) :: rest =>
      match v with
      | .jnull => .error "TypeError: cannot destructure null"
      | .undef => .error "TypeError: cannot destructure undefined"
      | .obj m =>
        if !(jsTruthy (getField m "columns")) then .error ("Columns are undefined for " ++ k)
        else
          let restv := restOf (.obj m)
          match (if (jsOwnEntries restv).length > 0 then checkColumnsF fuel restv else .ok ()) with
          | .error e => .error e
          | .ok _ => checkColumnsF_entries fuel rest
      | _ =>
        -- a non-object node has no `columns` property
        .error ("Columns are undefined for " ++ k)

/-- The same loop over an array's index/value entries. -/
def checkColumnsF_arr : Nat → Nat → List JVal → Except String Unit
  | 0, _, _ => .error fuelErr
  | fuel + 1, i, xs =>
    match xs with
    | [] => .ok ()
    | v :: rest =>
      let k := toString i
      match v with
      | .jnull => .error "TypeError: cannot destructure null"
      | .undef => .error "TypeError: cannot destructure undefined"
      | .obj m =>
        if !(jsTruthy (getField m "columns")) then .error ("Columns are undefined for " ++ k)
        else
          let restv := restOf (.obj m)
          match (if (jsOwnEntries restv).length > 0 then checkColumnsF fuel restv else .ok ()) with
          | .error e => .error e
          | .ok _ => checkColumnsF_arr fuel (i + 1) rest
      | _ => .error ("Columns are undefined for " ++ k)
end

/-- `filterSelectedRelationColumnsUndefined` entry point. -/
def checkColumnsDefined (columnsData : JVal) : Except String Unit :=
  checkColumnsF (jweight columnsData + 1) columnsData

/-- Bookkeeping of `addSelect`'s nested-relation branch before the recursive
call: look up `relationAliases[relationPath]` (a missing entry is the hard
error naming the path), then record the relation node in
`selectedRelationColumns`, descending at the parent of the resolved path when
the path is dotted. -/
def selectNestedBook (s : Session) (k relationPath : String) :
    Except String (Session × AliasEntry) :=
  match aliasLookup s.relationAliases relationPath with
  | none => .error ("Relation alias not found for " ++ relationPath)
  | some relEntry =>
    let path := relEntry.path
    let pathSplit := splitDots path
    let s1 :=
      if pathSplit.length > 1 then
        let selPath := String.intercalate "." pathSplit.dropLast
        let selCol := lodashGet s.selectedRelationColumns selPath
        if jsTruthy selCol then
          -- set(selectedRelationColumn, key, {...selectedRelationColumn,
          --   alias, columns: [], path}) mutates the retrieved subobject in
          -- place, which is lodash-set at `selPath ++ "." ++ k`
          let node := objSet (objSet (objSet (jsSpread selCol)
            "alias" (.str relEntry.aliasName)) "columns" (.arr [])) "path" (.str path)
          let tree := lodashSet s.selectedRelationColumns (selPath ++ "." ++ k) node
          { s with selectedRelationColumns := tree }
        else
          let node := JVal.obj [(k, JVal.obj [("alias", JVal.str relEntry.aliasName),
            ("columns", JVal.arr []), ("path", JVal.str path)])]
          let tree := lodashSet s.selectedRelationColumns selPath node
          { s with selectedRelationColumns := tree }
      else
        let node := JVal.obj [("alias", JVal.str relEntry.aliasName),
          ("columns", JVal.arr []), ("path", JVal.str path)]
        let tree := lodashSet s.selectedRelationColumns path node
        { s with selectedRelationColumns := tree }
    .ok (s1, relEntry)

/-- Root-level `value === true` branch of `addSelect`. -/
def selectRootColumn (s : Session) (k parentAlias : String) : Session :=
  let s1 := { s with selectedColumns := lodashSet s.selectedColumns k (.bool true) }
  let sel := (parentAlias ++ "." ++ k, JVal.str (parentAlias ++ "_" ++ k))
  { s1 with qb := { s1.qb with extraSelects := s1.qb.extraSelects ++ [sel] } }

/-- Relation-level `value === true` branch of `addSelect`: rebuild the node
at `relationKey` with the column added (reading `.alias` on a missing node
throws). -/
def selectRelColumn (s : Session) (k parentAlias relationKey : String) :
    Session × Except String Unit :=
  let ra := lodashGet s.selectedRelationColumns relationKey
  match ra with
  | .jnull => (s, .error "TypeError: cannot read properties of null")
  | .undef => (s, .error "TypeError: cannot read properties of undefined")
  | _ =>
    let newNode := JVal.obj [("alias", objGet ra "alias"),
      ("columns", objSet (jsSpread (objGet ra "columns")) k (.bool true)),
      ("path", objGet ra "path")]
    let tree := lodashSet s.selectedRelationColumns relationKey newNode
    let s1 := { s with selectedRelationColumns := tree }
    let sel := (parentAlias ++ "." ++ k, JVal.str (parentAlias ++ "_" ++ k))
    ({ s1 with qb := { s1.qb with extraSelects := s1.qb.extraSelects ++ [sel] } }, .ok ())

/-- The `{ as }` rename branch of `addSelect`. -/
def selectRename (s : Session) (k parentAlias relationKey : String) (asVal : JVal) :
    Session :=
  if relationKey = "" then
    let cols := lodashSet s.selectedColumns k (.obj [("alias", asVal)])
    let s1 := { s with selectedColumns := cols }
    let sel := (parentAlias ++ "." ++ k, asVal)
    { s1 with qb := { s1.qb with extraSelects := s1.qb.extraSelects ++ [sel] } }
  else
    let ex := lodashGet s.selectedRelationColumns relationKey
    let exCols := if jsTruthy ex then objGet ex "columns" else JVal.undef
    let base := if jsTruthy ex then jsSpread ex else JVal.obj []
    let newCols := objSet (jsSpread exCols) k (.obj [("alias", asVal)])
    let newNode := objSet base "columns" newCols
    let tree := lodashSet s.selectedRelationColumns relationKey newNode
    let s1 := { s with selectedRelationColumns := tree }
    let sel := (parentAlias ++ "." ++ k, asVal)
    { s1 with qb := { s1.qb with extraSelects := s1.qb.extraSelects ++ [sel] } }

mutual
/-- `addSelect(data, parentAlias, _isFirst, relationKey)` (the unused
`isFirst` flag is dropped): walk the selection tree's entries. -/
def addSelectF : Nat → Session → JVal → String → String → Session × Except String Unit
  | 0, s, _, _, _ => (s, .error fuelErr)
  | fuel + 1, s, data, parentAlias, relationKey =>
    match data with
    | .obj fs => selectF_entries fuel s fs parentAlias relationKey
    | .arr xs => selectF_arr fuel s 0 xs parentAlias relationKey
    | .jnull => (s, .error "TypeError: cannot convert undefined or null to object")
    | .undef => (s, .error "TypeError: cannot convert undefined or null to object")
    | _ => (s, .ok ())

/-- The `map(selectors, ...)` loop of `addSelect`.  An object value with an
`as` key renames a column; an object value without one (also an array or
`null`, all of `typeof 'object'`) is a nested relation selection, which
requires an existing alias entry and recurses; `true` records a column;
anything else is ignored.  After each entry the checker runs on the whole
relation-columns tree. -/
def selectF_entries : Nat → Session → List (String × JVal) → String → String →
    Session × Except String Unit
  | 0, s, _, _, _ => (s, .error fuelErr)
  | fuel + 1, s, fs, parentAlias, relationKey =>
    match fs with
    | [] => (s, .ok ())
    | (k, v) :: rest =>
      let relationPath := if relationKey = "" then k else relationKey ++ "." ++ k
      let step : Session × Except String Unit :=
        match v with
        | .obj m =>
          if hasOwnKey (.obj m) "as" then
            (selectRename s k parentAlias relationKey (getField m "as"), .ok ())
          else
            match selectNestedBook s k relationPath with
            | .error e => (s, .error e)
            | .ok se => addSelectF fuel se.1 (.obj m) se.2.aliasName se.2.path
        | .arr xs =>
          match selectNestedBook s k relationPath with
          | .error e => (s, .error e)
          | .ok se => addSelectF fuel se.1 (.arr xs) se.2.aliasName se.2.path
        | .jnull =>
          match selectNestedBook s k relationPath with
          | .error e => (s, .error e)
          | .ok se => addSelectF fuel se.1 .jnull se.2.aliasName se.2.path
        | .bool true =>
          if relationKey = "" then (selectRootColumn s k parentAlias, .ok ())
          else selectRelColumn s k parentAlias relationKey
        | _ => (s, .ok ())
      match step with
      | (s', .error e) => (s', .error e)
      | (s', .ok _) =>
        match checkColumnsDefined s'.selectedRelationColumns with
        | .error e => (s', .error e)
        | .ok _ => selectF_entries fuel s' rest parentAlias relationKey

/-- The same loop over an array's index/value entries. -/
def selectF_arr : Nat → Session → Nat → List JVal → String → String →
    Session × Except String Unit
  | 0, s, _, _, _, _ => (s, .error fuelErr)
  | fuel + 1, s, i, xs, parentAlias, relationKey =>
    match xs with
    | [] => (s, .ok ())
    | v :: rest =>
      let k := toString i
      let relationPath := if relationKey = "" then k else relationKey ++ "." ++ k
      let step : Session × Except String Unit :=
        match v with
        | .obj m =>
          if hasOwnKey (.obj m) "as" then
            (selectRename s k parentAlias relationKey (getField m "as"), .ok ())
          else
            match selectNestedBook s k relationPath with
            | .error e => (s, .error e)
            | .ok se => addSelectF fuel se.1 (.obj m) se.2.aliasName se.2.path
        | .arr ys =>
          match selectNestedBook s k relationPath with
          | .error e => (s, .error e)
          | .ok se => addSelectF fuel se.1 (.arr ys) se.2.aliasName se.2.path
        | .jnull =>
          match selectNestedBook s k relationPath with
          | .error e => (s, .error e)
          | .ok se => addSelectF fuel se.1 .jnull se.2.aliasName se.2.path
        | .bool true =>
          if relationKey = "" then (selectRootColumn s k parentAlias, .ok ())
          else selectRelColumn s k parentAlias relationKey
        | _ => (s, .ok ())
      match step with
      | (s', .error e) => (s', .error e)
      | (s', .ok _) =>
        match checkColumnsDefined s'.selectedRelationColumns with
        | .error e => (s', .error e)
        | .ok _ => selectF_arr fuel s' (i + 1) rest parentAlias relationKey
end

/-- `select(selector)`: `addSelect` from the builder's root alias with an
empty relation key. -/
def selectOp (s : Session) (selector : JVal) : Session × Except String Unit :=
  addSelectF (jweight selector + 1) s selector s.qb.rootAlias ""

/-
  Result materializer: `processRelationData`, `mapRelationColumns`,
  `filterSelectedColumns`.
-/

/-- `v === undefined`. -/
def isUndef : JVal → Bool
  | .undef => true
  | _ => false

/-- The entry list of `const { columns, path, alias, ...rest } = {obj}`. -/
def restEntriesOf (m : List (String × JVal)) : List (String × JVal) :=
  m.filter (fun p => !(p.1 = "columns" || p.1 = "path" || p.1 = "alias"))

/-- The column-copy loop of `processRelationData`: copy `item[col]` when it
is not `undefined`, under the column name or its `{alias}` rename (reading
`.alias` of a `null` marker throws; of an array marker reads `undefined`). -/
def processColumns (item : JVal) : List (String × JVal) → JVal → Except String JVal
  | [], acc => .ok acc
  | (col, v) :: rest, acc =>
    if isUndef (objGet item col) then processColumns item rest acc
    else
      match v with
      | .jnull => .error "TypeError: cannot read properties of null"
      | w =>
        let outKey := if typeofObject w then jsKeyOf (objGet w "alias") else col
        processColumns item rest (objSet acc outKey (objGet item col))

mutual
/-- `processRelationData(item, columns, rest)`: falsy items yield `null`;
arrays map the same logic over their elements; otherwise the selected columns
are copied (skipping `undefined` values, renaming through `{alias}` markers),
nested relation nodes are processed recursively, and — when both the column
map and the nested subtree are empty — all of the item's own properties are
copied through `Object.assign`.

The `rest` parameter is always the entry list of a rest-destructured plain
object, as at both call sites in the source. -/
def processRelationDataF : Nat → JVal → JVal → List (String × JVal) → Except String JVal
  | 0, _, _, _ => .error fuelErr
  | fuel + 1, item, columns, restEntries =>
    if jsTruthy item then
      match item with
      | .arr xs =>
        match processRelationListF fuel xs columns restEntries with
        | .ok ys => .ok (.arr ys)
        | .error e => .error e
      | _ =>
        match columns with
        | .jnull => .error "TypeError: cannot convert undefined or null to object"
        | .undef => .error "TypeError: cannot convert undefined or null to object"
        | _ =>
          let colEntries := jsOwnEntries columns
          match processColumns item colEntries (.obj []) with
          | .error e => .error e
          | .ok r1 =>
            match (if restEntries.length > 0 then processNestedF fuel item restEntries r1 else .ok r1) with
            | .error e => .error e
            | .ok r2 =>
              if colEntries.isEmpty && restEntries.isEmpty then .ok (jsAssign r2 item)
              else .ok r2
    else .ok .jnull

/-- `item.map(subItem => processRelationData(subItem, columns, rest))`. -/
def processRelationListF : Nat → List JVal → JVal → List (String × JVal) →
    Except String (List JVal)
  | 0, _, _, _ => .error fuelErr
  | fuel + 1, xs, columns, restEntries =>
    match xs with
    | [] => .ok []
    | x :: rest =>
      match processRelationDataF fuel x columns restEntries with
      | .error e => .error e
      | .ok y =>
        match processRelationListF fuel rest columns restEntries with
        | .ok ys => .ok (y :: ys)
        | .error e => .error e

/-- The `Object.entries(rest).forEach(...)` loop: each nested node is
rest-destructured and, when the item carries a truthy value under the nested
key, processed recursively under its alias (or property name).  A non-object
node destructures to an `undefined` column map, which makes the recursive
call throw before its rest object is ever read, so an empty rest is passed
for it. -/
def processNestedF : Nat → JVal → List (String × JVal) → JVal → Except String JVal
  | 0, _, _, _ => .error fuelErr
  | fuel + 1, parentItem, entries, acc =>
    match entries with
    | [] => .ok acc
    | (nk, nv) :: rest =>
      match nv with
      | .jnull => .error "TypeError: cannot destructure null"
      | .undef => .error "TypeError: cannot destructure undefined"
      | .obj m =>
        let ncols := getField m "columns"
        let nalias := getField m "alias"
        if jsTruthy (objGet parentItem nk) then
          match processRelationDataF fuel (objGet parentItem nk) ncols (restEntriesOf m) with
          | .error e => .error e
          | .ok pv =>
            processNestedF fuel parentItem rest
              (objSet acc (if jsTruthy nalias then jsKeyOf nalias else nk) pv)
        else processNestedF fuel parentItem rest acc
      | other =>
        if jsTruthy (objGet parentItem nk) then
          match processRelationDataF fuel (objGet parentItem nk) (objGet other "columns") [] with
          | .error e => .error e
          | .ok pv =>
            processNestedF fuel parentItem rest
              (objSet acc (if jsTruthy (objGet other "alias") then jsKeyOf (objGet other "alias") else nk) pv)
        else processNestedF fuel parentItem rest acc
end

/-- `processRelationData` entry point.  The fuel is a sound upper bound on
the length of any recursion chain: along such a chain the pair
`(lweight restEntries, jweight item)` decreases lexicographically, the first
component never exceeding its initial value and the second never exceeding
the weight of the original item (every later item is a member of an earlier
one). -/
def processRelationData (item columns : JVal) (restEntries : List (String × JVal)) :
    Except String JVal :=
  processRelationDataF ((lweight restEntries + 1) * (jweight item + 1) + 1) item columns restEntries

/-- The `Object.entries(columnsData).forEach(...)` loop of
`mapRelationColumns`: destructure each planned relation node, fetch the
hydrated value at `path || key` from the row, and — only when that value is
truthy — process it and store it under `alias || key`.  Absent or `null`
relation values leave the result untouched.  (As in `processNested`,
a non-object node destructures to an `undefined` column map and its rest
object is never read.) -/
def mapRelationEntries (data : JVal) : List (String × JVal) → JVal → Except String JVal
  | [], result => .ok result
  | (k, v) :: rest, result =>
    match v with
    | .jnull => .error "TypeError: cannot destructure null"
    | .undef => .error "TypeError: cannot destructure undefined"
    | .obj m =>
      let pathv := getField m "path"
      let aliasv := getField m "alias"
      let pathStr := if jsTruthy pathv then jsKeyOf pathv else k
      let existingData := lodashGet data pathStr
      if jsTruthy existingData then
        match processRelationData existingData (getField m "columns") (restEntriesOf m) with
        | .error e => .error e
        | .ok pv =>
          mapRelationEntries data rest
            (objSet result (if jsTruthy aliasv then jsKeyOf aliasv else k) pv)
      else mapRelationEntries data rest result
    | other =>
      let existingData := lodashGet data k
      if jsTruthy existingData then
        match processRelationData existingData (objGet other "columns") [] with
        | .error e => .error e
        | .ok pv => mapRelationEntries data rest (objSet result k pv)
      else mapRelationEntries data rest result

/-- `mapRelationColumns(data, columnsData, result)`. -/
def mapRelationColumns (data columnsData result : JVal) : Except String JVal :=
  match columnsData with
  | .jnull => .error "TypeError: cannot convert undefined or null to object"
  | .undef => .error "TypeError: cannot convert undefined or null to object"
  | _ => mapRelationEntries data (jsOwnEntries columnsData) result

/-- The `for key in this.selectedColumns` loop of `filterSelectedColumns`:
boolean markers copy `row[key]` under the key itself — note that this
creates the key even when the row has no value for it — while `{alias}`
markers copy under the alias. -/
def filterColsLoop (data : JVal) : List (String × JVal) → JVal → Except String JVal
  | [], acc => .ok acc
  | (k, rv) :: rest, acc =>
    match rv with
    | .bool _ => filterColsLoop data rest (objSet acc k (lodashGet data k))
    | .jnull => .error "TypeError: cannot read properties of null"
    | .undef => .error "TypeError: cannot read properties of undefined"
    | w => filterColsLoop data rest (objSet acc (jsKeyOf (objGet w "alias")) (lodashGet data k))

/-- `filterSelectedColumns(data)`: copy the selected root columns (or, when
no root column was selected, pass the row itself through), then fold the
planned relation columns into the result. -/
def filterSelectedColumns (s : Session) (data : JVal) : Except String JVal :=
  let entries := jsOwnEntries s.selectedColumns
  match filterColsLoop data entries (.obj []) with
  | .error e => .error e
  | .ok base =>
    let result := if entries.isEmpty then data else base
    mapRelationColumns data s.selectedRelationColumns result

/-
  Terminal execution operations.  The underlying engine is an oracle; each
  operation issues exactly one call to it (recorded in the returned call
  list), materializes the returned rows, and resets the session.
-/

/-- One fetch request kind of the underlying engine. -/
inductive CallKind where
  | getOne
  | getMany
  | getManyAndCount
  | getExists
deriving Repr, DecidableEq

/-- The underlying engine as an oracle from builder state to rows. -/
structure Engine where
  getOne : Builder → Option JVal
  getMany : Builder → List JVal
  getManyAndCount : Builder → List JVal × Nat
  getExists : Builder → Bool

/-- Materialize every row of a list (`results.map(item =>
this.filterSelectedColumns(item))`), aborting on a thrown error. -/
def mapFilter (s : Session) : List JVal → Except String (List JVal)
  | [] => .ok []
  | x :: rest =>
    match filterSelectedColumns s x with
    | .error e => .error e
    | .ok y =>
      match mapFilter s rest with
      | .ok ys => .ok (y :: ys)
      | .error e => .error e

/-- `first()`: `limit(1).getOne()`, materialize, reset, then `No entity
found` if the result was falsy.  A materialization error propagates before
the reset. -/
def firstOp (s : Session) (eng : Engine) :
    Except String JVal × Session × List (CallKind × Builder) :=
  let b := { s.qb with limitN := some 1 }
  let calls := [(CallKind.getOne, b)]
  match eng.getOne b with
  | none =>
    let s' := resetQueryBuilder { s with qb := b }
    (.error "No entity found", s', calls)
  | some r =>
    match filterSelectedColumns s r with
    | .error e => (.error e, { s with qb := b }, calls)
    | .ok fr =>
      let s' := resetQueryBuilder { s with qb := b }
      if jsTruthy fr then (.ok fr, s', calls)
      else (.error "No entity found", s', calls)

/-- `firstOrDefault()`: as `first()` but a falsy result is returned as
`null`. -/
def firstOrDefaultOp (s : Session) (eng : Engine) :
    Except String (Option JVal) × Session × List (CallKind × Builder) :=
  let b := { s.qb with limitN := some 1 }
  let calls := [(CallKind.getOne, b)]
  match eng.getOne b with
  | none =>
    let s' := resetQueryBuilder { s with qb := b }
    (.ok none, s', calls)
  | some r =>
    match filterSelectedColumns s r with
    | .error e => (.error e, { s with qb := b }, calls)
    | .ok fr =>
      let s' := resetQueryBuilder { s with qb := b }
      (.ok (some fr), s', calls)

/-- `single()`: `limit(2).getMany()`, materialize all rows, reset, then
require exactly one row. -/
def singleOp (s : Session) (eng : Engine) :
    Except String JVal × Session × List (CallKind × Builder) :=
  let b := { s.qb with limitN := some 2 }
  let calls := [(CallKind.getMany, b)]
  let results := eng.getMany b
  match mapFilter s results with
  | .error e => (.error e, { s with qb := b }, calls)
  | .ok filtered =>
    let s' := resetQueryBuilder { s with qb := b }
    match filtered with
    | [] => (.error "No entity found", s', calls)
    | [x] => (.ok x, s', calls)
    | _ => (.error "Multiple entities found", s', calls)

/-- `singleOrDefault()`: at most one row; zero (or a falsy first) row yields
`null`. -/
def singleOrDefaultOp (s : Session) (eng : Engine) :
    Except String (Option JVal) × Session × List (CallKind × Builder) :=
  let b := { s.qb with limitN := some 2 }
  let calls := [(CallKind.getMany, b)]
  let results := eng.getMany b
  match mapFilter s results with
  | .error e => (.error e, { s with qb := b }, calls)
  | .ok filtered =>
    let s' := resetQueryBuilder { s with qb := b }
    if filtered.length > 1 then (.error "Multiple entities found", s', calls)
    else
      match filtered with
      | x :: _ => if jsTruthy x then (.ok (some x), s', calls) else (.ok none, s', calls)
      | [] => (.ok none, s', calls)

/-- `toList()`: `getMany()`, materialize, reset. -/
def toListOp (s : Session) (eng : Engine) :
    Except String (List JVal) × Session × List (CallKind × Builder) :=
  let b := s.qb
  let calls := [(CallKind.getMany, b)]
  match mapFilter s (eng.getMany b) with
  | .error e => (.error e, s, calls)
  | .ok filtered => (.ok filtered, resetQueryBuilder s, calls)

/-- `withCount()`: `getManyAndCount()`, materialize, reset, return
`[count, rows]`. -/
def withCountOp (s : Session) (eng : Engine) :
    Except String (Nat × List JVal) × Session × List (CallKind × Builder) :=
  let b := s.qb
  let calls := [(CallKind.getManyAndCount, b)]
  let rc := eng.getManyAndCount b
  match mapFilter s rc.1 with
  | .error e => (.error e, s, calls)
  | .ok filtered => (.ok (rc.2, filtered), resetQueryBuilder s, calls)

/-- `any()`: `getExists()`, reset. -/
def anyOp (s : Session) (eng : Engine) :
    Bool × Session × List (CallKind × Builder) :=
  let b := s.qb
  (eng.getExists b, resetQueryBuilder s, [(CallKind.getExists, b)])

/-
  `findByNestedProperty` / `deleteByNestedProperty` join-building loop,
  which — unlike `createAutomaticJoin` — looks each path segment up in the
  current entity's relation metadata and throws when it is absent, listing
  the available relation names.
-/

/-- Relation metadata: entity name → list of (relation name, target entity
name), standing for `EntityMetadata.relations` with
`relation.inverseEntityMetadata` as the target. -/
def ESchema := List (String × List (String × String))

/-- Relations of one entity. -/
def relationsOf (schema : ESchema) (ent : String) : List (String × String) :=
  match schema.find? (fun p => p.1 = ent) with
  | some p => p.2
  | none => []

/-- A single-quote character, used in the error messages below. -/
def sqc : String := String.mk [Char.ofNat 39]

/-- `Relation '<part>' not found in entity '<entity>'. Available relations:
...` — the message thrown by the nested-property loops. -/
def relationNotFoundMsg (part ent : String) (rels : List (String × String)) : String :=
  "Relation " ++ sqc ++ part ++ sqc ++ " not found in entity " ++ sqc ++ ent ++ sqc ++
    ". Available relations: " ++ String.intercalate ", " (rels.map (fun r => r.1))

/-- The `for` loop of `findByNestedProperty` over all path parts but the
last: synthesize the join alias from the root alias and the consumed parts,
look the segment up in the current entity's relations (throwing
`Relation ... not found` when absent), add the `leftJoin`, and advance to
the relation's target entity. -/
def findByNestedLoop (schema : ESchema) (rootAlias : String) (curAlias curEnt : String)
    (done parts : List String) (joins : List Join) :
    Except String (List Join × String) :=
  match parts with
  | [] => .ok (joins, curAlias)
  | part :: rest =>
    let done' := done ++ [part]
    let joinAlias := rootAlias ++ "_" ++ String.intercalate "_" done'
    let rels := relationsOf schema curEnt
    match rels.find? (fun r => r.1 = part) with
    | none => .error (relationNotFoundMsg part curEnt rels)
    | some r =>
      findByNestedLoop schema rootAlias joinAlias r.2 done' rest
        (joins ++ [⟨curAlias ++ "." ++ part, joinAlias, false⟩])

/-- `findByNestedProperty(propertyPath, value)` up to the point where the
query is issued: the joins built for all but the last segment, and the final
`<alias>.<property> = :findByValue` condition.  An error prevents the query
from being issued at all. -/
def findByNestedProperty (schema : ESchema) (rootAlias ent propertyPath : String) :
    Except String (List Join × String) :=
  let parts := splitDots propertyPath
  match findByNestedLoop schema rootAlias rootAlias ent [] parts.dropLast [] with
  | .error e => .error e
  | .ok (joins, finalAlias) =>
    .ok (joins, finalAlias ++ "." ++ (parts.getLastD "") ++ " = :findByValue")

/-- All leading (non-final) segments of a path resolve through the relation
metadata chain. -/
def segsResolvable (schema : ESchema) (ent : String) : List String → Bool
  | [] => true
  | p :: rest =>
    match (relationsOf schema ent).find? (fun r => r.1 = p) with
    | none => false
    | some r => segsResolvable schema r.2 rest

/-
  The building calls of one query session, for stating session-level
  invariants over arbitrary call sequences.
-/

/-- One building call of a query session: `include`, `where` or `select`
(each with its JSON argument). -/
inductive BuildCall where
  | includeC (j : JVal)
  | whereC (p : JVal)
  | selectC (j : JVal)

/-- Apply one building call to the session.  A thrown error leaves the
session as mutated up to the throw, exactly as the in-place mutation of
`this` does in the source. -/
def applyCall (s : Session) : BuildCall → Session
  | .includeC j => (includeOp s j).1
  | .whereC p => (whereOp s p).1
  | .selectC j => (selectOp s j).1

/-- Run a sequence of building calls from a session. -/
def runCalls (s : Session) (cs : List BuildCall) : Session :=
  cs.foldl applyCall s

/-
  Session-level invariants: the alias registry keeps at most one entry per
  relation path, and the join list never carries two joins with the same
  alias.  These are preserved by every building call of a query session.
-/

/-- The registry invariant of claim C2. -/
def regInv (s : Session) : Prop :=
  (s.relationAliases.map Prod.fst).Nodup ∧ (s.qb.joins.map Join.aliasName).Nodup

/-- The parts of the session that `addSelect` never touches: the repository
data, the join list, and the alias registry. -/
def selSame (a b : Session) : Prop :=
  a.repo = b.repo ∧ a.qb.joins = b.qb.joins ∧ a.relationAliases = b.relationAliases

/-
  Concrete repositories, predicates and plans used to instantiate the claim
  theorems on closed inputs.
-/

/-- A repository whose root entity is aliased `u` (table `users`). -/
def uRepo : Repo := ⟨"u", "users"⟩

/-- A fresh query session on `uRepo`. -/
def uS : Session := initSession uRepo

/-- `{name: {$eq: "John"}}`. -/
def predC1a : JVal := .obj [("name", .obj [("$eq", .str "John")])]

/-- `{$and: [{age: {$gte: 18}}, {age: {$lt: 65}}]}`. -/
def predC1b : JVal :=
  .obj [("$and", .arr [.obj [("age", .obj [("$gte", .num 18)])],
                       .obj [("age", .obj [("$lt", .num 65)])]])]

/-- `{name: {$foo: 1}}`. -/
def predC4 : JVal := .obj [("name", .obj [("$foo", .num 1)])]

/-- Relation metadata with a single entity `User` whose only relation is
`posts` (targeting `Post`). -/
def demoSchema : ESchema := [("User", [("posts", "Post")])]

/-- `{bogus: {title: {$eq: "x"}}}` — a predicate referencing the relation
path `bogus`, which names no relation of `User` in `demoSchema`. -/
def predC5 : JVal := .obj [("bogus", .obj [("title", .obj [("$eq", .str "x")])])]

/-- A session on `uRepo` whose registry already maps `posts` to alias `p`. -/
def s2w : Session := { uS with relationAliases := [("posts", ⟨"p", "posts"⟩)] }

/-- A session on `uRepo` with the single selected root column `name`. -/
def s10 : Session := { uS with selectedColumns := .obj [("name", .bool true)] }

/-- A selection plan with one relation node for `posts` (column `title`). -/
def relPlan : List (String × JVal) :=
  [("posts", .obj [("columns", .obj [("title", .bool true)]),
                   ("path", .str "posts"), ("alias", .str "posts")])]

/-- An engine oracle returning one fixed row to every fetch. -/
def engT : Engine :=
  ⟨fun _ => some (.obj [("id", .num 1)]), fun _ => [.obj [("id", .num 1)]],
   fun _ => ([], 0), fun _ => true⟩

/-- `true` on `Except.ok` (normal, non-throwing completion). -/
def excOk {ε α : Type} : Except ε α → Bool
  | .ok _ => true
  | .error _ => false

/-- The session's join/alias/projection plan is cleared: empty alias
registry, empty root-column map, empty relation-column tree. -/
def planCleared (s : Session) : Prop :=
  s.relationAliases = [] ∧ s.selectedColumns = .obj [] ∧ s.selectedRelationColumns = .obj []

/-
  Verification theorems.
-/

theorem jweight_pos (v : JVal) : 1 ≤ jweight v := by
  cases v <;> simp [jweight]

theorem lweight_filter_le (p : String × JVal → Bool) (fs : List (String × JVal)) :
    lweight (fs.filter p) ≤ lweight fs := by
  induction fs with
  | nil => simp
  | cons hd tl ih =>
    obtain ⟨k, v⟩ := hd
    by_cases h : p (k, v) <;> simp [List.filter, h, lweight] <;> omega

theorem lweight_enumFrom (i : Nat) (xs : List JVal) :
    lweight (enumFrom i xs) = aweight xs := by
  induction xs generalizing i with
  | nil => simp [enumFrom, lweight, aweight]
  | cons x rest ih => simp [enumFrom, lweight, aweight, ih]

theorem getField_weight (fs : List (String × JVal)) (k : String) :
    getField fs k = .undef ∨ 2 + jweight (getField fs k) ≤ lweight fs := by
  induction fs with
  | nil => left; rfl
  | cons hd tl ih =>
    obtain ⟨k', v⟩ := hd
    by_cases h : k' = k
    · right; simp [getField, h, lweight]
    · rcases ih with h' | h'
      · left; simpa [getField, h]
      · right; simp only [getField, h, if_false, lweight]; omega

theorem aweight_getD (xs : List JVal) (i : Nat) :
    xs.getD i .undef = .undef ∨ 2 + jweight (xs.getD i .undef) ≤ aweight xs := by
  induction xs generalizing i with
  | nil => left; simp [List.getD]
  | cons x rest ih =>
    cases i with
    | zero => right; simp [List.getD, aweight]
    | succ n =>
      rcases ih n with h | h
      · left; simpa [List.getD] using h
      · right
        simp only [List.getD] at h ⊢
        simp only [List.get?, aweight]
        omega

/-- Reading a truthy member of an object or array yields a strictly lighter
value (the basis for termination of the recursive walks). -/
theorem jweight_objGet_lt {v : JVal} (k : String)
    (hshape : typeofObject v = true) (hnn : v ≠ .jnull)
    (ht : jsTruthy (objGet v k) = true) :
    jweight (objGet v k) < jweight v := by
  cases v with
  | obj fs =>
    have hred : objGet (JVal.obj fs) k = getField fs k := rfl
    rcases getField_weight fs k with h | h
    · rw [hred, h] at ht
      simp [jsTruthy] at ht
    · rw [hred]; simp only [jweight]; omega
  | arr xs =>
    have hred : objGet (JVal.arr xs) k =
        (match strToNat? k with
         | some i => xs.getD i JVal.undef
         | none => JVal.undef) := rfl
    cases hto : strToNat? k with
    | none => rw [hred, hto] at ht; simp [jsTruthy] at ht
    | some i =>
      have hred2 : objGet (JVal.arr xs) k = xs.getD i JVal.undef := by
        rw [hred, hto]
      rw [hred2] at ht ⊢
      rcases aweight_getD xs i with h | h
      · rw [h] at ht; simp [jsTruthy] at ht
      · simp only [jweight]; omega
  | jnull => exact absurd rfl hnn
  | undef => simp [typeofObject] at hshape
  | bool b => simp [typeofObject] at hshape
  | num n => simp [typeofObject] at hshape
  | str s => simp [typeofObject] at hshape

theorem weight_getField_lt_lcons (m : List (String × JVal)) (k key : String)
    (rest : List (String × JVal)) (h : jsTruthy (getField m key) = true) :
    jweight (getField m key) < lweight ((k, JVal.obj m) :: rest) := by
  rcases getField_weight m key with h' | h'
  · rw [h'] at h; simp [jsTruthy] at h
  · have : jweight (JVal.obj m) = 1 + lweight m := by simp [jweight]
    simp only [lweight, this]
    omega

theorem weight_getField_lt_acons (m : List (String × JVal)) (key : String)
    (rest : List JVal) (h : jsTruthy (getField m key) = true) :
    jweight (getField m key) < aweight (JVal.obj m :: rest) := by
  rcases getField_weight m key with h' | h'
  · rw [h'] at h; simp [jsTruthy] at h
  · have : jweight (JVal.obj m) = 1 + lweight m := by simp [jweight]
    simp only [aweight, this]
    omega

theorem jweight_restOf_obj (m : List (String × JVal)) :
    jweight (restOf (JVal.obj m)) ≤ jweight (JVal.obj m) := by
  have hr : restOf (JVal.obj m) =
      .obj (m.filter (fun p => !(p.1 = "columns" || p.1 = "path" || p.1 = "alias"))) := rfl
  rw [hr]
  have h1 := lweight_filter_le
    (fun p => !(p.1 = "columns" || p.1 = "path" || p.1 = "alias")) m
  have h2 : jweight (JVal.obj (m.filter
      (fun p => !(p.1 = "columns" || p.1 = "path" || p.1 = "alias")))) =
      1 + lweight (m.filter (fun p => !(p.1 = "columns" || p.1 = "path" || p.1 = "alias"))) := by
    simp [jweight]
  have h3 : jweight (JVal.obj m) = 1 + lweight m := by simp [jweight]
  omega

theorem lweight_restEntriesOf_le (m : List (String × JVal)) :
    lweight (restEntriesOf m) ≤ lweight m :=
  lweight_filter_le _ m

theorem mem_keys_aliasStore {l : List (String × AliasEntry)} {k k' : String} {e : AliasEntry}
    (h : k' ∈ (aliasStore l k e).map Prod.fst) : k' ∈ l.map Prod.fst ∨ k' = k := by
  induction l with
  | nil =>
    simp only [aliasStore, List.map, List.mem_singleton] at h
    right; exact h
  | cons hd tl ih =>
    obtain ⟨kh, eh⟩ := hd
    by_cases hk : kh = k
    · rw [show aliasStore ((kh, eh) :: tl) k e = (k, e) :: tl from by
        simp [aliasStore, hk]] at h
      simp only [List.map, List.mem_cons] at h
      rcases h with h | h
      · right; exact h
      · left; exact List.mem_cons_of_mem _ h
    · rw [show aliasStore ((kh, eh) :: tl) k e = (kh, eh) :: aliasStore tl k e from by
        simp [aliasStore, hk]] at h
      simp only [List.map, List.mem_cons] at h
      rcases h with h | h
      · left; rw [h]; exact List.mem_cons_self _ _
      · rcases ih h with h' | h'
        · left; exact List.mem_cons_of_mem _ h'
        · right; exact h'

theorem nodup_keys_aliasStore {l : List (String × AliasEntry)} (k : String) (e : AliasEntry)
    (h : (l.map Prod.fst).Nodup) : ((aliasStore l k e).map Prod.fst).Nodup := by
  induction l with
  | nil => simp [aliasStore]
  | cons hd tl ih =>
    obtain ⟨kh, eh⟩ := hd
    simp only [List.map, List.nodup_cons] at h
    by_cases hk : kh = k
    · rw [show aliasStore ((kh, eh) :: tl) k e = (k, e) :: tl from by simp [aliasStore, hk]]
      simp only [List.map, List.nodup_cons]
      exact ⟨by rw [← hk]; exact h.1, h.2⟩
    · rw [show aliasStore ((kh, eh) :: tl) k e = (kh, eh) :: aliasStore tl k e from by
        simp [aliasStore, hk]]
      simp only [List.map, List.nodup_cons]
      refine ⟨?_, ih h.2⟩
      intro hmem
      rcases mem_keys_aliasStore hmem with h' | h'
      · exact h.1 h'
      · exact hk h'

theorem not_mem_of_joinExists_false {js : List Join} {a : String}
    (h : joinExists js a = false) : a ∉ js.map Join.aliasName := by
  intro hmem
  simp only [joinExists, List.any_eq_false] at h
  simp only [List.mem_map] at hmem
  obtain ⟨j, hj, hja⟩ := hmem
  have := h j hj
  simp [hja] at this

theorem nodup_joins_append {js : List Join} (ref a : String) (sel : Bool)
    (h : (js.map Join.aliasName).Nodup) (hx : joinExists js a = false) :
    ((js ++ [(⟨ref, a, sel⟩ : Join)]).map Join.aliasName).Nodup := by
  rw [List.map_append, List.nodup_append]
  refine ⟨h, by simp, ?_⟩
  intro x hx1 hx2
  simp only [List.map, List.mem_singleton] at hx2
  subst hx2
  exact not_mem_of_joinExists_false hx hx1

theorem regInv_includeJoin {s : Session} (column a p : String)
    (h : regInv s) : regInv (includeJoin s column a p) := by
  obtain ⟨h1, h2⟩ := h
  cases hx : joinExists s.qb.joins a with
  | true =>
    constructor
    · simp [includeJoin, hx, nodup_keys_aliasStore _ _ h1]
    · simpa [includeJoin, hx] using h2
  | false =>
    constructor
    · simp [includeJoin, hx, nodup_keys_aliasStore _ _ h1]
    · simpa [includeJoin, hx, addJoin] using nodup_joins_append column a true h2 hx

theorem repo_includeJoin (s : Session) (column a p : String) :
    (includeJoin s column a p).repo = s.repo := by
  cases hx : joinExists s.qb.joins a <;> simp [includeJoin, hx]

theorem autoJoinLoop_pres (P : Session → Prop)
    (hGuard : ∀ s ref a, joinExists s.qb.joins a = false → P s →
      P { s with qb := addJoin s.qb ref a false })
    (hStore : ∀ s bp e, P s → P { s with relationAliases := aliasStore s.relationAliases bp e })
    (rest : List String) :
    ∀ s done cur, P s → P (autoJoinLoop s done rest cur).1 := by
  induction rest with
  | nil => intro s done cur h; simpa [autoJoinLoop] using h
  | cons part restParts ih =>
    intro s done cur h
    simp only [autoJoinLoop]
    cases hl : aliasLookup s.relationAliases (String.intercalate "." (done ++ [part])) with
    | some e => exact ih s (done ++ [part]) e.aliasName h
    | none =>
      apply ih
      apply hStore
      cases hx : joinExists s.qb.joins
          (s.qb.rootAlias ++ "_" ++ String.intercalate "_" (done ++ [part])) with
      | true => simpa using h
      | false =>
        simpa using hGuard s (cur ++ "." ++ part)
          (s.qb.rootAlias ++ "_" ++ String.intercalate "_" (done ++ [part])) hx h

theorem regInv_autoJoinLoop (rest : List String) (s : Session) (done : List String)
    (cur : String) (h : regInv s) : regInv (autoJoinLoop s done rest cur).1 := by
  refine autoJoinLoop_pres regInv ?_ ?_ rest s done cur h
  · intro s' ref a hx hP
    exact ⟨hP.1, by simpa [addJoin] using nodup_joins_append ref a false hP.2 hx⟩
  · intro s' bp e hP
    exact ⟨nodup_keys_aliasStore bp e hP.1, hP.2⟩

theorem regInv_createAutomaticJoin (s : Session) (path a : String)
    (h : regInv s) : regInv (createAutomaticJoin s path a).1 := by
  simp only [createAutomaticJoin]
  cases hl : aliasLookup s.relationAliases path with
  | some e => simpa using h
  | none => exact regInv_autoJoinLoop _ s [] a h

theorem repo_autoJoinLoop (rest : List String) (s : Session) (done : List String)
    (cur : String) : (autoJoinLoop s done rest cur).1.repo = s.repo := by
  exact autoJoinLoop_pres (fun s' => s'.repo = s.repo)
    (fun s' ref a _ hP => hP) (fun s' bp e hP => hP) rest s done cur rfl

theorem repo_createAutomaticJoin (s : Session) (path a : String) :
    (createAutomaticJoin s path a).1.repo = s.repo := by
  simp only [createAutomaticJoin]
  cases hl : aliasLookup s.relationAliases path with
  | some e => simp
  | none => exact repo_autoJoinLoop _ s [] a

theorem walkFam_pres (P : Session → Prop)
    (hAuto : ∀ s path a, P s → P (createAutomaticJoin s path a).1) :
    ∀ fuel : Nat,
      (∀ expr al p st, P st.sess → P (walkF fuel expr al p st).1.sess) ∧
      (∀ field c al p st, P st.sess → P (walkF_step fuel field c al p st).1.sess) ∧
      (∀ fs al p st, P st.sess → P (walkF_entries fuel fs al p st).1.sess) ∧
      (∀ i xs al p st, P st.sess → P (walkF_arr fuel i xs al p st).1.sess) ∧
      (∀ xs al p st, P st.sess → P (walkF_list fuel xs al p st).1.sess) := by
  intro fuel
  induction fuel with
  | zero =>
    refine ⟨?_, ?_, ?_, ?_, ?_⟩ <;> intros <;>
      simp_all [walkF, walkF_step, walkF_entries, walkF_arr, walkF_list]
  | succ fuel ih =>
    obtain ⟨ihW, ihS, ihE, ihA, ihL⟩ := ih
    refine ⟨?_, ?_, ?_, ?_, ?_⟩
    · intro expr al p st hP
      cases expr with
      | obj fs =>
        simp only [walkF]
        split
        · split
          · rename_i xs heq
            rcases hres : walkF_list fuel xs al p st with ⟨st', r⟩
            have h2 := ihL xs al p st hP
            rw [hres] at h2
            cases r <;> simpa [hres] using h2
          · exact hP
        · split
          · split
            · rename_i xs heq
              rcases hres : walkF_list fuel xs al p st with ⟨st', r⟩
              have h2 := ihL xs al p st hP
              rw [hres] at h2
              cases r <;> simpa [hres] using h2
            · exact hP
          · rcases hres : walkF_entries fuel fs al p st with ⟨st', r⟩
            have h2 := ihE fs al p st hP
            rw [hres] at h2
            cases r <;> simpa [hres] using h2
      | arr xs =>
        simp only [walkF]
        rcases hres : walkF_arr fuel 0 xs al p st with ⟨st', r⟩
        have h2 := ihA 0 xs al p st hP
        rw [hres] at h2
        cases r <;> simpa [hres] using h2
      | jnull => simpa [walkF] using hP
      | undef => simpa [walkF] using hP
      | bool b => simpa [walkF] using hP
      | num n => simpa [walkF] using hP
      | str sv => simpa [walkF] using hP
    · intro field c al p st hP
      simp only [walkF_step]
      split
      · rcases hla : aliasLookup st.sess.relationAliases
            (if p = "" then field else p ++ "." ++ field) with _ | e'
        · simp only [hla]
          exact ihW c _ _ _ (hAuto _ _ _ hP)
        · simp only [hla]
          exact ihW c _ _ _ hP
      · exact hP
    · intro fs al p st hP
      induction fs generalizing st with
      | nil => simpa [walkF_entries] using hP
      | cons hd rest ihRest =>
        obtain ⟨field, conditions⟩ := hd
        simp only [walkF_entries]
        rcases hres : walkF_step fuel field conditions al p st with ⟨st', r⟩
        have h2 := ihS field conditions al p st hP
        rw [hres] at h2
        cases r with
        | error e => simpa [hres] using h2
        | ok frag =>
          rcases hres2 : walkF_entries fuel rest al p st' with ⟨st'', r2⟩
          have h3 := ihE rest al p st' h2
          rw [hres2] at h3
          cases r2 <;> simpa [hres, hres2] using h3
    · intro i xs al p st hP
      induction xs generalizing i st with
      | nil => simpa [walkF_arr] using hP
      | cons conditions rest ihRest =>
        simp only [walkF_arr]
        rcases hres : walkF_step fuel (toString i) conditions al p st with ⟨st', r⟩
        have h2 := ihS (toString i) conditions al p st hP
        rw [hres] at h2
        cases r with
        | error e => simpa [hres] using h2
        | ok frag =>
          rcases hres2 : walkF_arr fuel (i + 1) rest al p st' with ⟨st'', r2⟩
          have h3 := ihA (i + 1) rest al p st' h2
          rw [hres2] at h3
          cases r2 <;> simpa [hres, hres2] using h3
    · intro xs al p st hP
      induction xs generalizing st with
      | nil => simpa [walkF_list] using hP
      | cons x rest ihRest =>
        simp only [walkF_list]
        rcases hres : walkF fuel x al p st with ⟨st', r⟩
        have h2 := ihW x al p st hP
        rw [hres] at h2
        cases r with
        | error e => simpa [hres] using h2
        | ok frag =>
          rcases hres2 : walkF_list fuel rest al p st' with ⟨st'', r2⟩
          have h3 := ihL rest al p st' h2
          rw [hres2] at h3
          cases r2 <;> simpa [hres, hres2] using h3

theorem includeFam_pres (P : Session → Prop)
    (hJoin : ∀ s column a pp, P s → P (includeJoin s column a pp)) :
    ∀ fuel : Nat,
      (∀ s d pa pp, P s → P (addIncludeF fuel s d pa pp).1) ∧
      (∀ s fs pa pp, P s → P (includeF_entries fuel s fs pa pp).1) ∧
      (∀ s i xs pa pp, P s → P (includeF_arr fuel s i xs pa pp).1) := by
  intro fuel
  induction fuel with
  | zero =>
    refine ⟨?_, ?_, ?_⟩ <;> intros <;>
      simp_all [addIncludeF, includeF_entries, includeF_arr]
  | succ fuel ih =>
    obtain ⟨ihI, ihE, ihA⟩ := ih
    refine ⟨?_, ?_, ?_⟩
    · intro s d pa pp hP
      cases d with
      | obj fs => simpa [addIncludeF] using ihE s fs pa pp hP
      | arr xs => simpa [addIncludeF] using ihA s 0 xs pa pp hP
      | jnull => simpa [addIncludeF] using hP
      | undef => simpa [addIncludeF] using hP
      | bool b => simpa [addIncludeF] using hP
      | num n => simpa [addIncludeF] using hP
      | str sv => simpa [addIncludeF] using hP
    · intro s fs pa pp hP
      cases fs with
      | nil => simpa [includeF_entries] using hP
      | cons hd rest =>
        obtain ⟨k, v⟩ := hd
        simp only [includeF_entries]
        have hstep : ∀ q : Session × Except String Unit,
            (match v with
             | .jnull => (s, Except.error "TypeError: cannot destructure null")
             | .obj m =>
               let asVal := getField m "as"
               let includeVal := getField m "include"
               let relAlias := if jsTruthy asVal then jsKeyOf asVal
                 else pa ++ "_" ++ k
               let s' := includeJoin s (pa ++ "." ++ k) relAlias
                 (if pp = "" then k else pp ++ "." ++ k)
               if jsTruthy includeVal then
                 addIncludeF fuel s' includeVal relAlias (if pp = "" then k else pp ++ "." ++ k)
               else (s', .ok ())
             | _ => (includeJoin s (pa ++ "." ++ k) (pa ++ "_" ++ k)
                 (if pp = "" then k else pp ++ "." ++ k), .ok ())) = q → P q.1 := by
          intro q hq
          cases v with
          | jnull => rw [← hq]; exact hP
          | obj m =>
            rw [← hq]
            simp only
            split
            · exact ihI _ _ _ _ (hJoin _ _ _ _ hP)
            · exact hJoin _ _ _ _ hP
          | arr xs => rw [← hq]; exact hJoin _ _ _ _ hP
          | undef => rw [← hq]; exact hJoin _ _ _ _ hP
          | bool b => rw [← hq]; exact hJoin _ _ _ _ hP
          | num n => rw [← hq]; exact hJoin _ _ _ _ hP
          | str sv => rw [← hq]; exact hJoin _ _ _ _ hP
        rcases hres : (match v with
             | .jnull => (s, Except.error "TypeError: cannot destructure null")
             | .obj m =>
               let asVal := getField m "as"
               let includeVal := getField m "include"
               let relAlias := if jsTruthy asVal then jsKeyOf asVal
                 else pa ++ "_" ++ k
               let s' := includeJoin s (pa ++ "." ++ k) relAlias
                 (if pp = "" then k else pp ++ "." ++ k)
               if jsTruthy includeVal then
                 addIncludeF fuel s' includeVal relAlias (if pp = "" then k else pp ++ "." ++ k)
               else (s', .ok ())
             | _ => (includeJoin s (pa ++ "." ++ k) (pa ++ "_" ++ k)
                 (if pp = "" then k else pp ++ "." ++ k), .ok ())) with ⟨s', r⟩
        have hP' := hstep (s', r) hres
        rw [hres]
        cases r with
        | error e => exact hP'
        | ok u => simpa using ihE s' rest pa pp hP'
    · intro s i xs pa pp hP
      cases xs with
      | nil => simpa [includeF_arr] using hP
      | cons v rest =>
        simp only [includeF_arr]
        have hstep : ∀ q : Session × Except String Unit,
            (match v with
             | .jnull => (s, Except.error "TypeError: cannot destructure null")
             | .obj m =>
               let asVal := getField m "as"
               let includeVal := getField m "include"
               let relAlias := if jsTruthy asVal then jsKeyOf asVal
                 else pa ++ "_" ++ toString i
               let s' := includeJoin s (pa ++ "." ++ toString i) relAlias
                 (if pp = "" then toString i else pp ++ "." ++ toString i)
               if jsTruthy includeVal then
                 addIncludeF fuel s' includeVal relAlias
                   (if pp = "" then toString i else pp ++ "." ++ toString i)
               else (s', .ok ())
             | _ => (includeJoin s (pa ++ "." ++ toString i) (pa ++ "_" ++ toString i)
                 (if pp = "" then toString i else pp ++ "." ++ toString i), .ok ())) = q →
            P q.1 := by
          intro q hq
          cases v with
          | jnull => rw [← hq]; exact hP
          | obj m =>
            rw [← hq]
            simp only
            split
            · exact ihI _ _ _ _ (hJoin _ _ _ _ hP)
            · exact hJoin _ _ _ _ hP
          | arr ys => rw [← hq]; exact hJoin _ _ _ _ hP
          | undef => rw [← hq]; exact hJoin _ _ _ _ hP
          | bool b => rw [← hq]; exact hJoin _ _ _ _ hP
          | num n => rw [← hq]; exact hJoin _ _ _ _ hP
          | str sv => rw [← hq]; exact hJoin _ _ _ _ hP
        rcases hres : (match v with
             | .jnull => (s, Except.error "TypeError: cannot destructure null")
             | .obj m =>
               let asVal := getField m "as"
               let includeVal := getField m "include"
               let relAlias := if jsTruthy asVal then jsKeyOf asVal
                 else pa ++ "_" ++ toString i
               let s' := includeJoin s (pa ++ "." ++ toString i) relAlias
                 (if pp = "" then toString i else pp ++ "." ++ toString i)
               if jsTruthy includeVal then
                 addIncludeF fuel s' includeVal relAlias
                   (if pp = "" then toString i else pp ++ "." ++ toString i)
               else (s', .ok ())
             | _ => (includeJoin s (pa ++ "." ++ toString i) (pa ++ "_" ++ toString i)
                 (if pp = "" then toString i else pp ++ "." ++ toString i), .ok ())) with ⟨s', r⟩
        have hP' := hstep (s', r) hres
        rw [hres]
        cases r with
        | error e => exact hP'
        | ok u => simpa using ihA s' (i + 1) rest pa pp hP'

theorem selSame_refl (a : Session) : selSame a a := ⟨rfl, rfl, rfl⟩

theorem selSame_trans {a b c : Session} (h1 : selSame a b) (h2 : selSame b c) : selSame a c :=
  ⟨h1.1.trans h2.1, h1.2.1.trans h2.2.1, h1.2.2.trans h2.2.2⟩

theorem selSame_selectRename (s : Session) (k pa rk : String) (av : JVal) :
    selSame (selectRename s k pa rk av) s := by
  unfold selectRename
  split <;> exact ⟨rfl, rfl, rfl⟩

theorem selSame_selectRootColumn (s : Session) (k pa : String) :
    selSame (selectRootColumn s k pa) s := ⟨rfl, rfl, rfl⟩

theorem selSame_selectRelColumn (s : Session) (k pa rk : String) :
    selSame (selectRelColumn s k pa rk).1 s := by
  unfold selectRelColumn
  rcases hra : lodashGet s.selectedRelationColumns rk with _ | _ | b | n | sv | xs | fs <;>
    exact ⟨rfl, rfl, rfl⟩

theorem selSame_selectNestedBook {s : Session} {k rp : String}
    {q : Session × AliasEntry} (h : selectNestedBook s k rp = .ok q) :
    selSame q.1 s := by
  unfold selectNestedBook at h
  rcases hla : aliasLookup s.relationAliases rp with _ | e
  · rw [hla] at h
    simp at h
  · rw [hla] at h
    simp only at h
    split at h
    · split at h
      · cases h; exact ⟨rfl, rfl, rfl⟩
      · cases h; exact ⟨rfl, rfl, rfl⟩
    · cases h; exact ⟨rfl, rfl, rfl⟩

theorem selectFam_selSame :
    ∀ fuel : Nat,
      (∀ s d pa rk, selSame (addSelectF fuel s d pa rk).1 s) ∧
      (∀ s fs pa rk, selSame (selectF_entries fuel s fs pa rk).1 s) ∧
      (∀ s i xs pa rk, selSame (selectF_arr fuel s i xs pa rk).1 s) := by
  intro fuel
  induction fuel with
  | zero =>
    refine ⟨?_, ?_, ?_⟩ <;> intros <;>
      simp_all [addSelectF, selectF_entries, selectF_arr, selSame]
  | succ fuel ih =>
    obtain ⟨ihS, ihE, ihA⟩ := ih
    have hStep : ∀ (s : Session) (k : String) (v : JVal) (pa rk rp : String),
        selSame ((match v with
          | JVal.obj m =>
            if hasOwnKey (.obj m) "as" then
              (selectRename s k pa rk (getField m "as"), Except.ok ())
            else
              match selectNestedBook s k rp with
              | .error e => (s, Except.error e)
              | .ok se => addSelectF fuel se.1 (.obj m) se.2.aliasName se.2.path
          | JVal.arr xs =>
            match selectNestedBook s k rp with
            | .error e => (s, Except.error e)
            | .ok se => addSelectF fuel se.1 (.arr xs) se.2.aliasName se.2.path
          | JVal.jnull =>
            match selectNestedBook s k rp with
            | .error e => (s, Except.error e)
            | .ok se => addSelectF fuel se.1 .jnull se.2.aliasName se.2.path
          | JVal.bool true =>
            if rk = "" then (selectRootColumn s k pa, Except.ok ())
            else selectRelColumn s k pa rk
          | _ => (s, Except.ok ())) : Session × Except String Unit).1 s := by
      intro s k v pa rk rp
      cases v with
      | obj m =>
        by_cases has : hasOwnKey (.obj m) "as"
        · simp only [has, if_true]
          exact selSame_selectRename s k pa rk (getField m "as")
        · simp only [has, if_false]
          rcases hnb : selectNestedBook s k rp with e | se
          · exact selSame_refl s
          · exact selSame_trans (ihS se.1 (.obj m) se.2.aliasName se.2.path)
              (selSame_selectNestedBook hnb)
      | arr xs =>
        rcases hnb : selectNestedBook s k rp with e | se
        · exact selSame_refl s
        · exact selSame_trans (ihS se.1 (.arr xs) se.2.aliasName se.2.path)
            (selSame_selectNestedBook hnb)
      | jnull =>
        rcases hnb : selectNestedBook s k rp with e | se
        · exact selSame_refl s
        · exact selSame_trans (ihS se.1 .jnull se.2.aliasName se.2.path)
            (selSame_selectNestedBook hnb)
      | bool b =>
        cases b
        · exact selSame_refl s
        · by_cases hrk : rk = ""
          · simp only [hrk, if_true]
            exact selSame_selectRootColumn s k pa
          · simp only [hrk, if_false]
            exact selSame_selectRelColumn s k pa rk
      | undef => exact selSame_refl s
      | num n => exact selSame_refl s
      | str sv => exact selSame_refl s
    refine ⟨?_, ?_, ?_⟩
    · intro s d pa rk
      cases d with
      | obj fs => simpa [addSelectF] using ihE s fs pa rk
      | arr xs => simpa [addSelectF] using ihA s 0 xs pa rk
      | jnull => simp [addSelectF, selSame]
      | undef => simp [addSelectF, selSame]
      | bool b => simp [addSelectF, selSame]
      | num n => simp [addSelectF, selSame]
      | str sv => simp [addSelectF, selSame]
    · intro s fs pa rk
      cases fs with
      | nil => simp [selectF_entries, selSame]
      | cons hd rest =>
        obtain ⟨k, v⟩ := hd
        simp only [selectF_entries]
        rcases hres : (match v with
          | JVal.obj m =>
            if hasOwnKey (.obj m) "as" then
              (selectRename s k pa rk (getField m "as"), Except.ok ())
            else
              match selectNestedBook s k (if rk = "" then k else rk ++ "." ++ k) with
              | .error e => (s, Except.error e)
              | .ok se => addSelectF fuel se.1 (.obj m) se.2.aliasName se.2.path
          | JVal.arr xs =>
            match selectNestedBook s k (if rk = "" then k else rk ++ "." ++ k) with
            | .error e => (s, Except.error e)
            | .ok se => addSelectF fuel se.1 (.arr xs) se.2.aliasName se.2.path
          | JVal.jnull =>
            match selectNestedBook s k (if rk = "" then k else rk ++ "." ++ k) with
            | .error e => (s, Except.error e)
            | .ok se => addSelectF fuel se.1 .jnull se.2.aliasName se.2.path
          | JVal.bool true =>
            if rk = "" then (selectRootColumn s k pa, Except.ok ())
            else selectRelColumn s k pa rk
          | _ => (s, Except.ok ())) with ⟨s', r⟩
        have hS : selSame s' s := by
          have := hStep s k v pa rk (if rk = "" then k else rk ++ "." ++ k)
          rw [hres] at this
          exact this
        rw [hres]
        cases r with
        | error e => exact hS
        | ok u =>
          rcases hchk : checkColumnsDefined s'.selectedRelationColumns with e | u'
          · simp only [hchk]
            exact hS
          · simp only [hchk]
            exact selSame_trans (ihE s' rest pa rk) hS
    · intro s i xs pa rk
      cases xs with
      | nil => simp [selectF_arr, selSame]
      | cons v rest =>
        simp only [selectF_arr]
        rcases hres : (match v with
          | JVal.obj m =>
            if hasOwnKey (.obj m) "as" then
              (selectRename s (toString i) pa rk (getField m "as"), Except.ok ())
            else
              match selectNestedBook s (toString i)
                  (if rk = "" then toString i else rk ++ "." ++ toString i) with
              | .error e => (s, Except.error e)
              | .ok se => addSelectF fuel se.1 (.obj m) se.2.aliasName se.2.path
          | JVal.arr ys =>
            match selectNestedBook s (toString i)
                (if rk = "" then toString i else rk ++ "." ++ toString i) with
            | .error e => (s, Except.error e)
            | .ok se => addSelectF fuel se.1 (.arr ys) se.2.aliasName se.2.path
          | JVal.jnull =>
            match selectNestedBook s (toString i)
                (if rk = "" then toString i else rk ++ "." ++ toString i) with
            | .error e => (s, Except.error e)
            | .ok se => addSelectF fuel se.1 .jnull se.2.aliasName se.2.path
          | JVal.bool true =>
            if rk = "" then (selectRootColumn s (toString i) pa, Except.ok ())
            else selectRelColumn s (toString i) pa rk
          | _ => (s, Except.ok ())) with ⟨s', r⟩
        have hS : selSame s' s := by
          have := hStep s (toString i) v pa rk
            (if rk = "" then toString i else rk ++ "." ++ toString i)
          rw [hres] at this
          exact this
        rw [hres]
        cases r with
        | error e => exact hS
        | ok u =>
          rcases hchk : checkColumnsDefined s'.selectedRelationColumns with e | u'
          · simp only [hchk]
            exact hS
          · simp only [hchk]
            exact selSame_trans (ihA s' (i + 1) rest pa rk) hS

/-- `where()` preserves the registry invariant: predicate compilation only
adds joins through `createAutomaticJoin`, and installing the clause does not
touch the join list or the registry. -/
theorem regInv_whereOp {s : Session} (p : JVal) (h : regInv s) : regInv (whereOp s p).1 := by
  have hw := (walkFam_pres regInv
    (fun s' path a hP => regInv_createAutomaticJoin s' path a hP) (jweight p + 1)).1
  rcases hres : parseJsonPredicate s p s.qb.rootAlias with ⟨st, r⟩
  have hres' : walkF (jweight p + 1) p s.qb.rootAlias "" ⟨s, [], 0⟩ = (st, r) := hres
  have hst : regInv st.sess := by
    have := hw p s.qb.rootAlias "" ⟨s, [], 0⟩ h
    rw [hres'] at this
    exact this
  unfold whereOp
  rw [hres]
  cases r with
  | error e => exact hst
  | ok clause => exact ⟨hst.1, hst.2⟩

theorem repo_whereOp (s : Session) (p : JVal) : (whereOp s p).1.repo = s.repo := by
  have hw := (walkFam_pres (fun s' => s'.repo = s.repo)
    (fun s' path a hP => (repo_createAutomaticJoin s' path a).trans hP) (jweight p + 1)).1
  rcases hres : parseJsonPredicate s p s.qb.rootAlias with ⟨st, r⟩
  have hres' : walkF (jweight p + 1) p s.qb.rootAlias "" ⟨s, [], 0⟩ = (st, r) := hres
  have hst : st.sess.repo = s.repo := by
    have := hw p s.qb.rootAlias "" ⟨s, [], 0⟩ rfl
    rw [hres'] at this
    exact this
  unfold whereOp
  rw [hres]
  cases r with
  | error e => exact hst
  | ok clause => exact hst

/-- `include()` establishes the registry invariant unconditionally: it starts
from a reset session (empty registry, empty join list) and every later step
goes through `includeJoin`. -/
theorem regInv_includeOp (s : Session) (j : JVal) : regInv (includeOp s j).1 := by
  have h := (includeFam_pres regInv
    (fun s' c a pp hP => regInv_includeJoin c a pp hP) (jweight j + 1)).1
  unfold includeOp
  exact h (resetQueryBuilder s) j (resetQueryBuilder s).qb.rootAlias ""
    ⟨by simp [resetQueryBuilder, freshBuilder], by simp [resetQueryBuilder, freshBuilder]⟩

theorem repo_includeOp (s : Session) (j : JVal) : (includeOp s j).1.repo = s.repo := by
  have h := (includeFam_pres (fun s' => s'.repo = s.repo)
    (fun s' c a pp hP => (repo_includeJoin s' c a pp).trans hP) (jweight j + 1)).1
  unfold includeOp
  exact h (resetQueryBuilder s) j (resetQueryBuilder s).qb.rootAlias "" rfl

theorem regInv_selectOp {s : Session} (j : JVal) (h : regInv s) : regInv (selectOp s j).1 := by
  have hs := (selectFam_selSame (jweight j + 1)).1 s j s.qb.rootAlias ""
  unfold selectOp regInv
  refine ⟨?_, ?_⟩
  · rw [hs.2.2]; exact h.1
  · rw [hs.2.1]; exact h.2

theorem repo_selectOp (s : Session) (j : JVal) : (selectOp s j).1.repo = s.repo :=
  ((selectFam_selSame (jweight j + 1)).1 s j s.qb.rootAlias "").1

theorem regInv_applyCall {s : Session} (c : BuildCall) (h : regInv s) :
    regInv (applyCall s c) := by
  cases c with
  | includeC j => exact regInv_includeOp s j
  | whereC p => exact regInv_whereOp p h
  | selectC j => exact regInv_selectOp j h

theorem regInv_runCalls (r : Repo) (cs : List BuildCall) :
    regInv (runCalls (initSession r) cs) := by
  have hinit : regInv (initSession r) :=
    ⟨by simp [initSession], by simp [initSession, freshBuilder]⟩
  suffices H : ∀ s, regInv s → regInv (runCalls s cs) from H _ hinit
  induction cs with
  | nil => intro s h; simpa [runCalls] using h
  | cons c rest ih =>
    intro s h
    simpa [runCalls, List.foldl] using ih (applyCall s c) (regInv_applyCall c h)

theorem planCleared_reset (s : Session) : planCleared (resetQueryBuilder s) :=
  ⟨rfl, rfl, rfl⟩

/-- Assigning under a key absent from the field list appends. -/
theorem setField_append {l : List (String × JVal)} {k : String} (v : JVal)
    (h : k ∉ l.map Prod.fst) : setField l k v = l ++ [(k, v)] := by
  induction l with
  | nil => rfl
  | cons hd tl ih =>
    obtain ⟨k', v'⟩ := hd
    simp only [List.map, List.mem_cons] at h
    push_neg at h
    simp only [setField, List.cons_append]
    rw [if_neg (fun he => h.1 he.symm), ih h.2]

/-- The `Object.assign` copy loop over pairwise-distinct fresh keys appends
them all in order. -/
theorem assignLoop_fresh :
    ∀ (m acc : List (String × JVal)), (m.map Prod.fst).Nodup →
      (∀ k ∈ m.map Prod.fst, k ∉ acc.map Prod.fst) →
      m.foldl (fun a p => objSet a p.1 p.2) (JVal.obj acc) = .obj (acc ++ m) := by
  intro m
  induction m with
  | nil => intro acc _ _; simp
  | cons hd tl ih =>
    intro acc hnd hfr
    obtain ⟨k, v⟩ := hd
    have hk : k ∉ acc.map Prod.fst := hfr k (by simp)
    have hknd : k ∉ tl.map Prod.fst ∧ (tl.map Prod.fst).Nodup := by
      simpa using hnd
    simp only [List.foldl]
    rw [show objSet (JVal.obj acc) k v = .obj (acc ++ [(k, v)]) from by
      simp [objSet, setField_append v hk]]
    rw [ih (acc ++ [(k, v)]) hknd.2 ?fresh]
    · simp
    case fresh =>
      intro k' hk'
      simp only [List.map_append, List.mem_append, List.map, List.mem_singleton]
      push_neg
      refine ⟨hfr k' (by simp [hk']), ?_⟩
      intro he
      exact hknd.1 (he ▸ hk')

/-- `Object.assign({}, obj)` copies a duplicate-free object verbatim. -/
theorem jsAssign_empty {m : List (String × JVal)} (h : (m.map Prod.fst).Nodup) :
    jsAssign (.obj []) (.obj m) = .obj m := by
  simpa using assignLoop_fresh m [] h (by simp)

/-- One fueled step of the empty-plan relation materialization: everything
the item owns is copied through `Object.assign`. -/
theorem processRelationDataF_empty (fuel : Nat) (m : List (String × JVal)) :
    processRelationDataF (fuel + 1) (.obj m) (.obj []) [] =
      .ok (jsAssign (.obj []) (.obj m)) := rfl

theorem processRelationData_empty {m : List (String × JVal)}
    (h : (m.map Prod.fst).Nodup) :
    processRelationData (.obj m) (.obj []) [] = .ok (.obj m) := by
  have hf : (lweight ([] : List (String × JVal)) + 1) * (jweight (.obj m) + 1) + 1 =
      (jweight (.obj m) + 1) + 1 := by simp [lweight]
  unfold processRelationData
  rw [hf, processRelationDataF_empty, jsAssign_empty h]

/-- The `Object.entries(columnsData).forEach` loop leaves the result exactly
as given when every planned relation value on the row is absent (`undefined`)
or `null`. -/
theorem mapRelationEntries_absent (data : JVal) :
    ∀ (entries : List (String × JVal)) (result : JVal),
      (∀ p ∈ entries, ∃ m, p.2 = JVal.obj m ∧
        (lodashGet data (if jsTruthy (getField m "path") then jsKeyOf (getField m "path") else p.1) = .undef ∨
         lodashGet data (if jsTruthy (getField m "path") then jsKeyOf (getField m "path") else p.1) = .jnull)) →
      mapRelationEntries data entries result = .ok result := by
  intro entries
  induction entries with
  | nil => intro result _; rfl
  | cons hd tl ih =>
    intro result h
    obtain ⟨k, v⟩ := hd
    obtain ⟨m, hm, hval⟩ := h (k, v) (by simp)
    simp only at hm
    subst hm
    simp only [mapRelationEntries]
    have hfalse : jsTruthy (lodashGet data
        (if jsTruthy (getField m "path") then jsKeyOf (getField m "path") else k)) = false := by
      rcases hval with h1 | h1 <;> rw [h1] <;> rfl
    rw [hfalse]
    simp only [Bool.false_eq_true, if_false]
    exact ih result (fun p hp => h p (by simp [hp]))

/-
  The claim theorems.
-/

/-- Claim C1: compiling `{name: {$eq: "John"}}` against root alias `u`
produces exactly the filter text `u.name = :name_0` with the single bound
parameter `name_0 = "John"`, and compiling
`{$and: [{age: {$gte: 18}}, {age: {$lt: 65}}]}` produces
`(u.age >= :age_0 AND u.age < :age_1)` with parameters `age_0 = 18` and
`age_1 = 65`. -/
theorem c1_predicate_round_trip :
    ((parseJsonPredicate uS predC1a "u").2 = .ok "u.name = :name_0" ∧
     (parseJsonPredicate uS predC1a "u").1.params = [("name_0", .str "John")]) ∧
    ((parseJsonPredicate uS predC1b "u").2 = .ok "(u.age >= :age_0 AND u.age < :age_1)" ∧
     (parseJsonPredicate uS predC1b "u").1.params = [("age_0", .num 18), ("age_1", .num 65)]) :=
  ⟨⟨rfl, rfl⟩, ⟨rfl, rfl⟩⟩

/-- Claim C2: over any sequence of inclusion, predicate and selection calls
from a fresh session, the alias registry holds at most one entry per
relation path and the join list never carries two joins with the same alias;
and resolving a path that already has a registry entry returns that entry
with the session unchanged (idempotence of `createAutomaticJoin`). -/
theorem c2_alias_registry_unique :
    (∀ (r : Repo) (cs : List BuildCall),
      ((runCalls (initSession r) cs).relationAliases.map Prod.fst).Nodup ∧
      ((runCalls (initSession r) cs).qb.joins.map Join.aliasName).Nodup) ∧
    (∀ (s : Session) (path a : String) (e : AliasEntry),
      aliasLookup s.relationAliases path = some e →
      createAutomaticJoin s path a = (s, e)) := by
  constructor
  · intro r cs
    exact regInv_runCalls r cs
  · intro s path a e h
    unfold createAutomaticJoin
    rw [h]

/-- Witness for C2: a session whose registry already maps `posts` to alias
`p` resolves `posts` to exactly that entry without touching the session, and
an include-then-where call sequence keeps both uniqueness invariants. -/
theorem c2_alias_registry_unique_witness :
    createAutomaticJoin s2w "posts" "u" = (s2w, ⟨"p", "posts"⟩) ∧
    (((runCalls (initSession uRepo) [.includeC (.str "posts"), .whereC predC1a]).relationAliases.map Prod.fst).Nodup ∧
     ((runCalls (initSession uRepo) [.includeC (.str "posts"), .whereC predC1a]).qb.joins.map Join.aliasName).Nodup) :=
  ⟨c2_alias_registry_unique.2 s2w "posts" "u" ⟨"p", "posts"⟩ rfl,
   c2_alias_registry_unique.1 uRepo [.includeC (.str "posts"), .whereC predC1a]⟩

/-- Claim C3 (corrected): the building calls are not commutative —
`include()` begins by resetting the whole session, so an inclusion made
after any other building call yields exactly the state of the inclusion
alone, discarding the earlier call entirely. -/
theorem c3_include_discards_prior_calls (s : Session) (c : BuildCall) (keySel : JVal) :
    includeOp (applyCall s c) keySel = includeOp s keySel := by
  have h : (applyCall s c).repo = s.repo := by
    cases c with
    | includeC j => exact repo_includeOp s j
    | whereC p => exact repo_whereOp s p
    | selectC j => exact repo_selectOp s j
  have hrs : resetQueryBuilder (applyCall s c) = resetQueryBuilder s := by
    unfold resetQueryBuilder
    rw [h]
  simp only [includeOp, hrs]

/-- Counterexample to C3 as stated: compiling a predicate before including
`posts` leaves no where clause on the final builder (the inclusion reset
discarded it), while the reverse order keeps one. -/
theorem c3_order_counterexample :
    ((includeOp ((whereOp uS predC1a).1) (.str "posts")).1.qb.whereClause.isSome = false) ∧
    ((whereOp ((includeOp uS (.str "posts")).1) predC1a).1.qb.whereClause.isSome = true) :=
  ⟨rfl, rfl⟩

/-- Claim C4: compiling `{name: {$foo: 1}}` throws
`Unsupported operator: $foo` with no partial compilation — the session is
untouched (no joins, no filter) and the parameter map is empty. -/
theorem c4_unsupported_operator :
    (parseJsonPredicate uS predC4 "u").2 = .error ("Unsupported operator: $foo") ∧
    (parseJsonPredicate uS predC4 "u").1.sess = uS ∧
    (parseJsonPredicate uS predC4 "u").1.params = [] ∧
    (whereOp uS predC4).1 = uS :=
  ⟨rfl, rfl, rfl, rfl⟩

/-- Claim C5 (corrected): the relation-metadata check lives in the
nested-property query path, not in predicate auto-joins: `findByNestedProperty`'s
join loop throws `Relation '<part>' not found in entity '<ent>'. Available
relations: ...` — listing the entity's available relation names — as soon as
a leading path segment names no relation of the current entity, and it can
only succeed when every leading segment resolves through the relation
metadata chain. -/
theorem c5_relation_metadata_check :
    (∀ (schema : ESchema) (ra ca ent : String) (done : List String) (joins : List Join)
        (part : String) (rest : List String),
      (relationsOf schema ent).find? (fun r => r.1 = part) = none →
      findByNestedLoop schema ra ca ent done (part :: rest) joins =
        .error (relationNotFoundMsg part ent (relationsOf schema ent))) ∧
    (∀ (schema : ESchema) (ra : String), ∀ (parts : List String), ∀ (ca ent : String)
        (done : List String) (joins : List Join) (res : List Join × String),
      findByNestedLoop schema ra ca ent done parts joins = .ok res →
      segsResolvable schema ent parts = true) := by
  constructor
  · intro schema ra ca ent done joins part rest h
    simp only [findByNestedLoop]
    rw [h]
  · intro schema ra parts
    induction parts with
    | nil => intro ca ent done joins res _; rfl
    | cons part rest ih =>
      intro ca ent done joins res h
      simp only [findByNestedLoop] at h
      rcases hf : (relationsOf schema ent).find? (fun r => r.1 = part) with _ | r
      · rw [hf] at h
        exact absurd h (by simp)
      · rw [hf] at h
        simp only [segsResolvable, hf]
        exact ih _ _ _ _ res h

/-- Witness for C5: in `demoSchema`, resolving the unknown segment `bogus`
from `User` throws the listing error, while the known segment `posts`
resolves. -/
theorem c5_relation_metadata_check_witness :
    findByNestedLoop demoSchema "u" "u" "User" [] ["bogus"] [] =
      .error (relationNotFoundMsg "bogus" "User" [("posts", "Post")]) ∧
    segsResolvable demoSchema "User" ["posts"] = true :=
  ⟨c5_relation_metadata_check.1 demoSchema "u" "u" "User" [] [] "bogus" [] rfl,
   c5_relation_metadata_check.2 demoSchema "u" ["posts"] "u" "User" [] []
     ([⟨"u.posts", "u_posts", false⟩], "u_posts") rfl⟩

/-- Counterexample to C5 as stated: a predicate referencing the relation path
`bogus` — which names no relation of `User` in `demoSchema` — compiles
without any error and silently creates the automatic join `u.bogus`:
predicate auto-joins never consult relation metadata. -/
theorem c5_autojoin_counterexample :
    (whereOp uS predC5).2 = .ok () ∧
    (whereOp uS predC5).1.qb.joins = [⟨"u.bogus", "u_bogus", false⟩] ∧
    (relationsOf demoSchema "User").find? (fun r => r.1 = "bogus") = none :=
  ⟨rfl, rfl, rfl⟩

/-- Claim C6: selecting the relation path `posts` on a session that never
included it throws a hard error naming the path, and a selection call never
changes the join list of any session. -/
theorem c6_select_requires_inclusion :
    (selectOp uS (.obj [("posts", .obj [("title", .bool true)])])).2 =
      .error "Relation alias not found for posts" ∧
    ∀ (s : Session) (sel : JVal), (selectOp s sel).1.qb.joins = s.qb.joins := by
  refine ⟨rfl, ?_⟩
  intro s sel
  exact ((selectFam_selSame (jweight sel + 1)).1 s sel s.qb.rootAlias "").2.1

/-- Claim C7: with an empty root-column map the materializer passes the row
itself through as the root result (only folding relation nodes into it); with
an entirely empty plan the row comes back unchanged; and a relation node with
an empty column map and no nested subtree copies every column of the
(duplicate-free) relation object through unchanged. -/
theorem c7_empty_plan_passthrough :
    (∀ (s : Session) (data : JVal), s.selectedColumns = .obj [] →
      filterSelectedColumns s data = mapRelationColumns data s.selectedRelationColumns data) ∧
    (∀ (s : Session) (data : JVal), s.selectedColumns = .obj [] →
      s.selectedRelationColumns = .obj [] → filterSelectedColumns s data = .ok data) ∧
    (∀ m : List (String × JVal), (m.map Prod.fst).Nodup →
      processRelationData (.obj m) (.obj []) [] = .ok (.obj m)) := by
  refine ⟨?_, ?_, ?_⟩
  · intro s data h
    simp [filterSelectedColumns, h, jsOwnEntries, filterColsLoop]
  · intro s data h h2
    simp [filterSelectedColumns, h, h2, jsOwnEntries, filterColsLoop,
      mapRelationColumns, mapRelationEntries]
  · intro m hm
    exact processRelationData_empty hm

/-- Witness for C7: a fresh session (empty plan) passes a two-column row
through unchanged, and the empty-plan relation materializer copies a
two-column object verbatim. -/
theorem c7_empty_plan_passthrough_witness :
    filterSelectedColumns uS (.obj [("id", .num 1), ("x", .str "y")]) =
      mapRelationColumns (.obj [("id", .num 1), ("x", .str "y")]) uS.selectedRelationColumns
        (.obj [("id", .num 1), ("x", .str "y")]) ∧
    filterSelectedColumns uS (.obj [("id", .num 1), ("x", .str "y")]) =
      .ok (.obj [("id", .num 1), ("x", .str "y")]) ∧
    processRelationData (.obj [("a", .num 1), ("b", .str "x")]) (.obj []) [] =
      .ok (.obj [("a", .num 1), ("b", .str "x")]) :=
  ⟨c7_empty_plan_passthrough.1 uS (.obj [("id", .num 1), ("x", .str "y")]) rfl,
   c7_empty_plan_passthrough.2.1 uS (.obj [("id", .num 1), ("x", .str "y")]) rfl rfl,
   c7_empty_plan_passthrough.2.2 [("a", .num 1), ("b", .str "x")] (by simp)⟩

/-- Claim C8: when every planned relation path is absent (`undefined`) or
`null` on the returned row, `mapRelationColumns` returns the accumulated
result exactly as given — the planned keys are omitted entirely, never
emitted as `null` placeholders. -/
theorem c8_relation_omission (data result : JVal) (entries : List (String × JVal))
    (h : ∀ p ∈ entries, ∃ m, p.2 = JVal.obj m ∧
      (lodashGet data (if jsTruthy (getField m "path") then jsKeyOf (getField m "path") else p.1) = .undef ∨
       lodashGet data (if jsTruthy (getField m "path") then jsKeyOf (getField m "path") else p.1) = .jnull)) :
    mapRelationColumns data (.obj entries) result = .ok result := by
  unfold mapRelationColumns
  exact mapRelationEntries_absent data entries result h

/-- Witness for C8: a plan with one relation node for `posts` materialized
against a row without a `posts` value leaves the result untouched. -/
theorem c8_relation_omission_witness :
    mapRelationColumns (.obj [("id", .num 1)]) (.obj relPlan) (.obj [("id", .num 1)]) =
      .ok (.obj [("id", .num 1)]) := by
  refine c8_relation_omission (.obj [("id", .num 1)]) (.obj [("id", .num 1)]) relPlan ?_
  intro p hp
  simp only [relPlan, List.mem_singleton] at hp
  subst hp
  exact ⟨_, rfl, Or.inl rfl⟩

/-- Claim C9: every terminal execution operation (`first`, `firstOrDefault`,
`single`, `singleOrDefault`, `toList`, `withCount`, `any`) issues exactly one
query to the underlying engine, and whenever it completes without throwing it
leaves the session's plan cleared: empty alias registry, empty root-column
map, empty relation-column tree — ready for an unrelated follow-up query. -/
theorem c9_terminal_reset (s : Session) (eng : Engine) :
    ((firstOp s eng).2.2.length = 1 ∧
      (excOk (firstOp s eng).1 = true → planCleared (firstOp s eng).2.1)) ∧
    ((firstOrDefaultOp s eng).2.2.length = 1 ∧
      (excOk (firstOrDefaultOp s eng).1 = true → planCleared (firstOrDefaultOp s eng).2.1)) ∧
    ((singleOp s eng).2.2.length = 1 ∧
      (excOk (singleOp s eng).1 = true → planCleared (singleOp s eng).2.1)) ∧
    ((singleOrDefaultOp s eng).2.2.length = 1 ∧
      (excOk (singleOrDefaultOp s eng).1 = true → planCleared (singleOrDefaultOp s eng).2.1)) ∧
    ((toListOp s eng).2.2.length = 1 ∧
      (excOk (toListOp s eng).1 = true → planCleared (toListOp s eng).2.1)) ∧
    ((withCountOp s eng).2.2.length = 1 ∧
      (excOk (withCountOp s eng).1 = true → planCleared (withCountOp s eng).2.1)) ∧
    ((anyOp s eng).2.2.length = 1 ∧ planCleared (anyOp s eng).2.1) := by
  refine ⟨?_, ?_, ?_, ?_, ?_, ?_, ?_, ?_⟩
  · simp only [firstOp]
    rcases hg : eng.getOne { s.qb with limitN := some 1 } with _ | r
    all_goals dsimp only
    · exact ⟨rfl, fun _ => planCleared_reset _⟩
    · rcases hf : filterSelectedColumns s r with e | fr
      · exact ⟨rfl, by intro h; simp [excOk] at h⟩
      · by_cases ht : jsTruthy fr
        · simp only [ht, if_true]
          exact ⟨rfl, fun _ => planCleared_reset _⟩
        · simp only [ht, Bool.false_eq_true, if_false]
          exact ⟨rfl, by intro h; simp [excOk] at h⟩
  · simp only [firstOrDefaultOp]
    rcases hg : eng.getOne { s.qb with limitN := some 1 } with _ | r
    all_goals dsimp only
    · exact ⟨rfl, fun _ => planCleared_reset _⟩
    · rcases hf : filterSelectedColumns s r with e | fr
      · exact ⟨rfl, by intro h; simp [excOk] at h⟩
      · exact ⟨rfl, fun _ => planCleared_reset _⟩
  · simp only [singleOp]
    rcases hm : mapFilter s (eng.getMany { s.qb with limitN := some 2 }) with e | filtered
    all_goals dsimp only
    · exact ⟨rfl, by intro h; simp [excOk] at h⟩
    · rcases filtered with _ | ⟨x, _ | ⟨y, rest⟩⟩
      · exact ⟨rfl, fun _ => planCleared_reset _⟩
      · exact ⟨rfl, fun _ => planCleared_reset _⟩
      · exact ⟨rfl, fun _ => planCleared_reset _⟩
  · simp only [singleOrDefaultOp]
    rcases hm : mapFilter s (eng.getMany { s.qb with limitN := some 2 }) with e | filtered
    all_goals dsimp only
    · exact ⟨rfl, by intro h; simp [excOk] at h⟩
    · by_cases hl : filtered.length > 1
      · simp only [hl, if_true]
        exact ⟨rfl, fun _ => planCleared_reset _⟩
      · simp only [hl, if_false]
        rcases filtered with _ | ⟨x, rest⟩
        · exact ⟨rfl, fun _ => planCleared_reset _⟩
        · by_cases ht : jsTruthy x
          · simp only [ht, if_true]
            exact ⟨rfl, fun _ => planCleared_reset _⟩
          · simp only [ht, Bool.false_eq_true, if_false]
            exact ⟨rfl, fun _ => planCleared_reset _⟩
  · simp only [toListOp]
    rcases hm : mapFilter s (eng.getMany s.qb) with e | filtered
    all_goals dsimp only
    · exact ⟨rfl, by intro h; simp [excOk] at h⟩
    · exact ⟨rfl, fun _ => planCleared_reset _⟩
  · simp only [withCountOp]
    rcases hm : mapFilter s (eng.getManyAndCount s.qb).1 with e | filtered
    all_goals dsimp only
    · exact ⟨rfl, by intro h; simp [excOk] at h⟩
    · exact ⟨rfl, fun _ => planCleared_reset _⟩
  · exact rfl
  · exact planCleared_reset s

/-- Witness for C9: on a fresh session with a one-row engine, `first`
succeeds in one query and clears the plan; `any` clears it unconditionally. -/
theorem c9_terminal_reset_witness :
    ((firstOp uS engT).2.2.length = 1 ∧ planCleared (firstOp uS engT).2.1) ∧
    ((toListOp uS engT).2.2.length = 1 ∧ planCleared (toListOp uS engT).2.1) ∧
    planCleared (anyOp uS engT).2.1 := by
  have h := c9_terminal_reset uS engT
  exact ⟨⟨h.1.1, h.1.2 rfl⟩, ⟨h.2.2.2.2.1.1, h.2.2.2.2.1.2 rfl⟩, h.2.2.2.2.2.2.2⟩

/-- Claim C10 (implicit): the root and relation column-copy rules treat
missing values asymmetrically — a selected root column absent from the row is
still emitted (with value `undefined`), while a selected relation column
whose value is `undefined` on the relation object is omitted from the
relation's output entirely. -/
theorem c10_missing_value_asymmetry :
    filterSelectedColumns s10 (.obj [("id", .num 1)]) = .ok (.obj [("name", .undef)]) ∧
    hasOwnKey (.obj [("name", .undef)]) "name" = true ∧
    processRelationData (.obj [("id", .num 5)]) (.obj [("title", .bool true)]) [] = .ok (.obj []) ∧
    hasOwnKey (.obj []) "title" = false :=
  ⟨rfl, rfl, rfl, rfl⟩
